import Mathlib

/-!
# Market Dependency Graph Engine — a shallow embedding in Lean 4

This file embeds the core of the Polymarket dependency-graph engine:

* `web/src/lib/correlation.ts` — time-series alignment, returns, Pearson
  correlation, structural sibling detection, correlation edge building,
  volatility;
* `web/src/lib/entities.ts` — dictionary-based named-entity extraction and
  shared-entity dependencies;
* `web/src/lib/temporal.ts` — resolution-date proximity dependencies;
* `web/src/hooks/useDependencyData.ts` — the graph assembler (the body of the
  `graph` computation: the four producer passes over a keyed edge map, the
  weight sort, truncation, and the connected-node filter).

Modelling conventions:

* JavaScript numbers are modelled as exact rationals (`ℚ`).  `Math.sqrt` is
  modelled by `Rat.sqrt` (exact on squares of rationals; every theorem below
  relies only on values of the square root at exact squares, at zero, or on no
  particular value at all).  `Math.log10` is applied by the code only to
  natural-number arguments; it is modelled by `log10Q`, the rational lower
  approximation ⌊20·log10 m⌋ / 20, which agrees with exact `log10` on every
  comparison the code performs.
* A JavaScript `Map` is modelled by an association list with JS semantics:
  `set` on an existing key replaces the value in place (keeping the key's
  original insertion position), otherwise appends; iteration is in insertion
  order.
* A `.sort(comparator)` call is modelled by a stable insertion sort on the
  comparator's key (ES2019 requires `Array.prototype.sort` to be stable).
* Date strings given to `new Date(...)` are modelled by `DateStr`: either a
  parsable string carrying its epoch-millisecond value, or an unparsable one
  (`NaN` from `getTime`).  Absent (`undefined`) or empty-string dates are
  modelled as `none` at the `Option DateStr` layer (both are falsy in JS).
* Identifier strings (market ids, event ids) are compared with `<` in
  `getEdgePairKey`; Lean's `String` order coincides with the JS UTF-16 order
  on the ASCII identifiers used throughout.
* Display-only fields that no computation reads back (the `explanation`
  strings, the mutable d3 layout slots `x`/`y`/`fx`/`fy`) are omitted.
-/

namespace PolyViz

/-! ## JavaScript `Map` model -/

/-- An association list modelling a JS `Map` with string keys, in insertion
order. -/
abbrev JsMap (α : Type) : Type := List (String × α)

/-- `map.set(k, v)`: replace in place if the key is present (JS `Map.set`
keeps the original insertion position of an existing key), else append. -/
def jsMapSet (k : String) (v : α) : JsMap α → JsMap α
  | [] => [(k, v)]
  | (k', v') :: rest => if k' = k then (k, v) :: rest else (k', v') :: jsMapSet k v rest

/-- `map.get(k)` (as an `Option`). -/
def jsMapGet : JsMap α → String → Option α
  | [], _ => none
  | (k', v) :: rest, k => if k' = k then some v else jsMapGet rest k

/-- `map.has(k)`. -/
def jsMapHas (m : JsMap α) (k : String) : Bool := (jsMapGet m k).isSome

/-- `Array.from(map.values())` (insertion order). -/
def jsMapValues (m : JsMap α) : List α := m.map (fun p => p.2)

/-- The keys of the map, in insertion order. -/
def jsMapKeys (m : JsMap α) : List String := m.map (fun p => p.1)

@[simp] theorem jsMapGet_nil (k : String) : jsMapGet ([] : JsMap α) k = none := rfl

@[simp] theorem jsMapGet_cons (k' : String) (v : α) (rest : JsMap α) (k : String) :
    jsMapGet ((k', v) :: rest) k = if k' = k then some v else jsMapGet rest k := rfl

theorem jsMapGet_set_self (k : String) (v : α) (m : JsMap α) :
    jsMapGet (jsMapSet k v m) k = some v := by
  induction m with
  | nil => simp [jsMapSet]
  | cons p rest ih =>
      obtain ⟨k', v'⟩ := p
      by_cases h : k' = k <;> simp [jsMapSet, h, ih]

theorem jsMapGet_set_ne (k k' : String) (v : α) (m : JsMap α) (h : k' ≠ k) :
    jsMapGet (jsMapSet k v m) k' = jsMapGet m k' := by
  induction m with
  | nil => simp [jsMapSet, Ne.symm h]
  | cons p rest ih =>
      obtain ⟨k₀, v₀⟩ := p
      by_cases h₀ : k₀ = k
      · subst h₀
        simp [jsMapSet, Ne.symm h]
      · by_cases h₁ : k₀ = k'
        · subst h₁
          simp [jsMapSet, h₀]
        · simp [jsMapSet, h₀, h₁, ih]

theorem mem_values_of_jsMapGet {m : JsMap α} {k : String} {v : α}
    (h : jsMapGet m k = some v) : v ∈ jsMapValues m := by
  induction m with
  | nil => simp [jsMapGet] at h
  | cons p rest ih =>
      obtain ⟨k', v'⟩ := p
      by_cases hk : k' = k
      · simp [jsMapGet, hk] at h
        simp [jsMapValues, h]
      · simp [jsMapGet, hk] at h
        simpa [jsMapValues] using Or.inr (ih h)

theorem mem_values_jsMapSet {m : JsMap α} {k : String} {v w : α}
    (h : w ∈ jsMapValues (jsMapSet k v m)) : w = v ∨ w ∈ jsMapValues m := by
  induction m with
  | nil => simpa [jsMapSet, jsMapValues] using h
  | cons p rest ih =>
      obtain ⟨k', v'⟩ := p
      by_cases hk : k' = k
      · simp [jsMapSet, hk, jsMapValues] at h
        rcases h with h | h
        · exact Or.inl h
        · exact Or.inr (by simp [jsMapValues, h])
      · simp [jsMapSet, hk, jsMapValues] at h
        rcases h with h | h
        · exact Or.inr (by simp [jsMapValues, h])
        · rcases ih (by simpa [jsMapValues] using h) with h' | h'
          · exact Or.inl h'
          · exact Or.inr (by simp [jsMapValues]; exact Or.inr (by simpa [jsMapValues] using h'))

theorem jsMapGet_isSome_of_values {m : JsMap α} {v : α}
    (h : v ∈ jsMapValues m) : ∃ k, (jsMapGet m k).isSome := by
  induction m with
  | nil => simp [jsMapValues] at h
  | cons p rest ih =>
      obtain ⟨k', v'⟩ := p
      exact ⟨k', by simp [jsMapGet]⟩

/-- Keys present in the map stay present after any `set`. -/
theorem jsMapGet_set_isSome_of_isSome {m : JsMap α} {k' : String}
    (h : (jsMapGet m k').isSome) (k : String) (v : α) :
    (jsMapGet (jsMapSet k v m) k').isSome := by
  by_cases hk : k' = k
  · subst hk; simp [jsMapGet_set_self]
  · rwa [jsMapGet_set_ne _ _ _ _ hk]

/-- A key occurring in the key list is found by `get`. -/
theorem jsMapGet_isSome_of_mem_keys {m : JsMap α} {a : String}
    (ha : a ∈ jsMapKeys m) : (jsMapGet m a).isSome := by
  induction m with
  | nil => simp [jsMapKeys] at ha
  | cons p rest ih =>
      obtain ⟨k', v'⟩ := p
      simp [jsMapKeys] at ha
      rcases ha with ha | ha
      · simp [jsMapGet, ha]
      · by_cases hk : k' = a
        · simp [jsMapGet, hk]
        · simp [jsMapGet, hk]
          exact ih (by simpa [jsMapKeys] using ha)

/-- A key found by `get` occurs in the key list. -/
theorem mem_keys_of_jsMapGet_isSome {m : JsMap α} {a : String}
    (ha : (jsMapGet m a).isSome) : a ∈ jsMapKeys m := by
  induction m with
  | nil => simp [jsMapGet] at ha
  | cons p rest ih =>
      obtain ⟨k', v'⟩ := p
      by_cases hk : k' = a
      · simp [jsMapKeys, hk]
      · simp [jsMapGet, hk] at ha
        simp [jsMapKeys]
        exact Or.inr (by simpa [jsMapKeys] using ih ha)

/-- The keys of `jsMapSet` are the old keys, plus `k` at the end if absent. -/
theorem jsMapKeys_set (k : String) (v : α) (m : JsMap α) :
    jsMapKeys (jsMapSet k v m) =
      if (jsMapGet m k).isSome then jsMapKeys m else jsMapKeys m ++ [k] := by
  induction m with
  | nil => simp [jsMapSet, jsMapKeys, jsMapGet]
  | cons p rest ih =>
      obtain ⟨k', v'⟩ := p
      by_cases hk : k' = k
      · simp [jsMapSet, jsMapKeys, jsMapGet, hk]
      · have ih' := ih
        simp only [jsMapKeys] at ih'
        simp only [jsMapSet, if_neg hk, jsMapKeys, List.map_cons, jsMapGet_cons, if_neg hk, ih']
        split <;> simp

/-- `jsMapSet` preserves distinctness of keys. -/
theorem jsMapKeys_nodup_set (k : String) (v : α) {m : JsMap α}
    (h : (jsMapKeys m).Nodup) : (jsMapKeys (jsMapSet k v m)).Nodup := by
  rw [jsMapKeys_set]
  split
  · exact h
  · rename_i hnone
    refine List.Nodup.append h (by simp) ?_
    intro a ha hb
    simp at hb
    subst hb
    exact hnone (jsMapGet_isSome_of_mem_keys ha)

/-- With distinct keys, every value in the map is `get` of its key. -/
theorem exists_get_of_mem_values {m : JsMap α} (hnd : (jsMapKeys m).Nodup)
    {v : α} (h : v ∈ jsMapValues m) : ∃ k, jsMapGet m k = some v := by
  induction m with
  | nil => simp [jsMapValues] at h
  | cons p rest ih =>
      obtain ⟨k', v'⟩ := p
      simp [jsMapValues] at h
      rcases h with h | h
      · exact ⟨k', by simp [jsMapGet, h]⟩
      · have hnd' := List.nodup_cons.mp hnd
        obtain ⟨k, hk⟩ := ih hnd'.2 (by simpa [jsMapValues] using h)
        refine ⟨k, ?_⟩
        have hk'k : k' ≠ k := by
          intro hc
          subst hc
          exact hnd'.1 (mem_keys_of_jsMapGet_isSome (by simp [hk]))
        simp [jsMapGet, hk'k, hk]

/-! ## Stable sort model for `Array.prototype.sort` -/

/-- Stable insert for a descending sort by `key` (earlier elements stay in
front of later elements with an equal key). -/
def insertDescBy (key : α → ℚ) (x : α) : List α → List α
  | [] => [x]
  | y :: ys => if key y ≤ key x then x :: y :: ys else y :: insertDescBy key x ys

/-- Stable descending insertion sort by `key`; models
`array.sort((a, b) => key(b) - key(a))`. -/
def sortDescBy (key : α → ℚ) : List α → List α
  | [] => []
  | x :: xs => insertDescBy key x (sortDescBy key xs)

/-- Stable insert for an ascending sort by `key`. -/
def insertAscBy (key : α → ℚ) (x : α) : List α → List α
  | [] => [x]
  | y :: ys => if key x ≤ key y then x :: y :: ys else y :: insertAscBy key x ys

/-- Stable ascending insertion sort by `key`; models
`array.sort((a, b) => key(a) - key(b))`. -/
def sortAscBy (key : α → ℚ) : List α → List α
  | [] => []
  | x :: xs => insertAscBy key x (sortAscBy key xs)

theorem insertDescBy_perm (key : α → ℚ) (x : α) (l : List α) :
    (insertDescBy key x l).Perm (x :: l) := by
  induction l with
  | nil => simp [insertDescBy]
  | cons y ys ih =>
      by_cases h : key y ≤ key x
      · simp [insertDescBy, h]
      · simp only [insertDescBy, if_neg h]
        exact (ih.cons y).trans (List.Perm.swap x y ys)

theorem sortDescBy_perm (key : α → ℚ) (l : List α) :
    (sortDescBy key l).Perm l := by
  induction l with
  | nil => simp [sortDescBy]
  | cons x xs ih =>
      exact (insertDescBy_perm key x (sortDescBy key xs)).trans (ih.cons x)

theorem mem_sortDescBy (key : α → ℚ) (l : List α) (a : α) :
    a ∈ sortDescBy key l ↔ a ∈ l := (sortDescBy_perm key l).mem_iff

theorem length_sortDescBy (key : α → ℚ) (l : List α) :
    (sortDescBy key l).length = l.length := (sortDescBy_perm key l).length_eq

theorem insertAscBy_perm (key : α → ℚ) (x : α) (l : List α) :
    (insertAscBy key x l).Perm (x :: l) := by
  induction l with
  | nil => simp [insertAscBy]
  | cons y ys ih =>
      by_cases h : key x ≤ key y
      · simp [insertAscBy, h]
      · simp only [insertAscBy, if_neg h]
        exact (ih.cons y).trans (List.Perm.swap x y ys)

theorem sortAscBy_perm (key : α → ℚ) (l : List α) :
    (sortAscBy key l).Perm l := by
  induction l with
  | nil => simp [sortAscBy]
  | cons x xs ih =>
      exact (insertAscBy_perm key x (sortAscBy key xs)).trans (ih.cons x)

theorem pairwise_insertDescBy (key : α → ℚ) (x : α) {l : List α}
    (h : l.Pairwise (fun a b => key b ≤ key a)) :
    (insertDescBy key x l).Pairwise (fun a b => key b ≤ key a) := by
  induction l with
  | nil => simp [insertDescBy]
  | cons y ys ih =>
      rcases List.pairwise_cons.mp h with ⟨hy, hys⟩
      by_cases hxy : key y ≤ key x
      · rw [insertDescBy, if_pos hxy]
        refine List.pairwise_cons.mpr ⟨?_, h⟩
        intro b hb
        rcases List.mem_cons.mp hb with hb | hb
        · simpa [hb] using hxy
        · exact le_trans (hy b hb) hxy
      · rw [insertDescBy, if_neg hxy]
        refine List.pairwise_cons.mpr ⟨?_, ih hys⟩
        intro b hb
        have hb' := (insertDescBy_perm key x ys).mem_iff.mp hb
        rcases List.mem_cons.mp hb' with hb' | hb'
        · subst hb'
          exact le_of_lt (lt_of_not_le hxy)
        · exact hy b hb'

/-- The result of the descending sort is sorted (weakly) by the key. -/
theorem pairwise_sortDescBy (key : α → ℚ) (l : List α) :
    (sortDescBy key l).Pairwise (fun a b => key b ≤ key a) := by
  induction l with
  | nil => simp [sortDescBy]
  | cons x xs ih => exact pairwise_insertDescBy key x ih

/-! ## Numeric models -/

/-- Model of `Math.log10` on the natural-number arguments the code applies it
to (`returnsA.length + 1` and the constant `51`): the rational lower
approximation `⌊20·log10 m⌋ / 20`.  It is monotone, zero iff `m ≤ 1`, and
agrees with exact `log10` on every comparison the engine performs (the only
one is `confidence > 0.3`, evaluated at `m = n + 1` with `n ≥ 4`, where both
the exact and the approximate value exceed `0.3 · log10 51`). -/
def log10Q (m : ℕ) : ℚ := (Nat.log 10 (m ^ 20) : ℚ) / 20

/-! ## Data model

Only the fields the dependency engine reads are embedded (`types.ts` carries
further display-only fields). -/

/-- One sample of a price series (`PriceHistoryPoint` in `types.ts`). -/
structure PriceHistoryPoint where
  timestamp : ℚ
  price : ℚ
deriving DecidableEq, Repr

/-- Model of a date string handed to `new Date(...)`: either it parses to an
epoch-millisecond timestamp or it parses to `NaN`. -/
inductive DateStr where
  | valid (ms : ℚ)
  | invalid
deriving DecidableEq, Repr

/-- `TimeWindow` (`'1h' | '24h' | '7d'`). -/
inductive TimeWindow where
  | h1
  | h24
  | d7
deriving DecidableEq, Repr

/-- `DependencyType`. -/
inductive DependencyType where
  | structural
  | correlation
  | entity
  | temporal
deriving DecidableEq, Repr

/-- The `dependencyType` filter (`'all'` or a single type). -/
inductive DependencyTypeFilter where
  | all
  | structural
  | correlation
  | entity
  | temporal
deriving DecidableEq, Repr

/-- Precedence label of a temporal proximity. -/
inductive Precedence where
  | before
  | after
  | same
deriving DecidableEq, Repr

/-- `MarketNode` (`types.ts`), restricted to the fields the engine reads. -/
structure MarketNode where
  id : String
  eventId : Option String := none
  question : String
  volume : ℚ := 0
  volume24hr : Option ℚ := none
  outcomeProb : ℚ := 0
  group : String := ""
  slug : String := ""
  endDate : Option DateStr := none
  clobTokenIds : List String := []
deriving DecidableEq, Repr

/-- `ProcessedEvent` (`types.ts`), restricted to the fields the engine reads. -/
structure ProcessedEvent where
  id : String
  categoryId : String := "other"
  title : String
  endDate : Option DateStr := none
  markets : List MarketNode
deriving DecidableEq, Repr

/-- `DependencyEdge` (`types.ts`); the display-only `explanation` string is
omitted. -/
structure DependencyEdge where
  id : String
  sourceId : String
  targetId : String
  type : DependencyType
  weight : ℚ
  correlation : Option ℚ := none
  timeWindow : Option TimeWindow := none
  sharedEventId : Option String := none
  sharedEventTitle : Option String := none
  sharedEntities : Option (List String) := none
  daysDiff : Option ℚ := none
  precedence : Option Precedence := none
deriving DecidableEq, Repr

/-- `DependencyNode` (`types.ts`); the mutable d3 layout slots are omitted. -/
structure DependencyNode where
  id : String
  marketId : String
  eventId : String
  eventTitle : String
  question : String
  volume : ℚ
  volume24hr : ℚ
  outcomeProb : ℚ
  categoryId : String
  categoryName : String
  slug : String
  volatility : ℚ
deriving DecidableEq, Repr

/-- `DependencyGraph` (`types.ts`). -/
structure DependencyGraph where
  nodes : List DependencyNode
  edges : List DependencyEdge
  centerNodeId : String
deriving DecidableEq, Repr

/-- `DependencyMapFilters` (`types.ts`). -/
structure DependencyMapFilters where
  correlationThreshold : ℚ
  timeWindow : TimeWindow
  dependencyType : DependencyTypeFilter
  showCrossEvent : Bool
  maxEdges : ℕ
  minSharedEntities : ℕ
  maxDaysDiff : ℚ
deriving DecidableEq, Repr

/-! ## `correlation.ts` -/

/-- `CorrelationResult` (`correlation.ts`). -/
structure CorrelationResult where
  correlation : ℚ
  confidence : ℚ
  n : ℕ
deriving DecidableEq, Repr

/-- The loop body of `interpolateAtTime`: scan the series, remembering the
last point with `timestamp ≤ t` (`before`) and stopping at the first point
with `timestamp ≥ t` (`after`). -/
def interpScan (t : ℚ) : List PriceHistoryPoint → Option PriceHistoryPoint →
    Option PriceHistoryPoint × Option PriceHistoryPoint
  | [], before => (before, none)
  | p :: ps, before =>
      let before' := if p.timestamp ≤ t then some p else before
      if t ≤ p.timestamp then (before', some p) else interpScan t ps before'

/-- `interpolateAtTime` (`correlation.ts`, lines 61–84). -/
def interpolateAtTime (series : List PriceHistoryPoint) (t : ℚ) : Option ℚ :=
  match interpScan t series none with
  | (none, none) => none
  | (none, some a) => some a.price
  | (some b, none) => some b.price
  | (some b, some a) =>
      if b.timestamp = a.timestamp then some b.price
      else some (b.price + (t - b.timestamp) / (a.timestamp - b.timestamp) * (a.price - b.price))

/-- The alignment loop of `alignTimeSeries`: for each point of (sorted)
series A inside the overlap, pair its price with series B's interpolated
value. -/
def alignLoop (sortedB : List PriceHistoryPoint) (startTime endTime : ℚ) :
    List PriceHistoryPoint → List (ℚ × ℚ)
  | [] => []
  | p :: ps =>
      if p.timestamp < startTime ∨ endTime < p.timestamp then
        alignLoop sortedB startTime endTime ps
      else
        match interpolateAtTime sortedB p.timestamp with
        | none => alignLoop sortedB startTime endTime ps
        | some v => (p.price, v) :: alignLoop sortedB startTime endTime ps

/-- `alignTimeSeries` (`correlation.ts`, lines 17–56). -/
def alignTimeSeries (seriesA seriesB : List PriceHistoryPoint) :
    List ℚ × List ℚ :=
  if seriesA.length < 2 ∨ seriesB.length < 2 then ([], [])
  else
    let sortedA := sortAscBy (fun p => p.timestamp) seriesA
    let sortedB := sortAscBy (fun p => p.timestamp) seriesB
    let startTime := max ((sortedA.headD ⟨0, 0⟩).timestamp) ((sortedB.headD ⟨0, 0⟩).timestamp)
    let endTime := min ((sortedA.getLastD ⟨0, 0⟩).timestamp) ((sortedB.getLastD ⟨0, 0⟩).timestamp)
    if endTime ≤ startTime then ([], [])
    else
      let pairs := alignLoop sortedB startTime endTime sortedA
      (pairs.map (fun q => q.1), pairs.map (fun q => q.2))

/-- `computeReturns` (`correlation.ts`, lines 90–100): simple returns, with a
zero return emitted whenever the previous price is zero. -/
def computeReturns : List ℚ → List ℚ
  | [] => []
  | [_] => []
  | p₀ :: p₁ :: ps =>
      (if p₀ ≠ 0 then (p₁ - p₀) / p₀ else 0) :: computeReturns (p₁ :: ps)

/-- `pearsonCorrelation` (`correlation.ts`, lines 105–128).  `Math.sqrt` is
modelled by `Rat.sqrt`. -/
def pearsonCorrelation (x y : List ℚ) : ℚ :=
  if x.length ≠ y.length ∨ x.length < 2 then 0
  else
    let n : ℚ := x.length
    let meanX := x.sum / n
    let meanY := y.sum / n
    let numerator := ((x.zip y).map (fun p => (p.1 - meanX) * (p.2 - meanY))).sum
    let sumSqX := (x.map (fun v => (v - meanX) * (v - meanX))).sum
    let sumSqY := (y.map (fun v => (v - meanY) * (v - meanY))).sum
    let denominator := Rat.sqrt (sumSqX * sumSqY)
    if denominator = 0 then 0 else numerator / denominator

/-- `computeCorrelation` (`correlation.ts`, lines 133–162). -/
def computeCorrelation (seriesA seriesB : List PriceHistoryPoint) :
    CorrelationResult :=
  let aligned := alignTimeSeries seriesA seriesB
  if aligned.1.length < 5 then
    { correlation := 0, confidence := 0, n := aligned.1.length }
  else
    let returnsA := computeReturns aligned.1
    let returnsB := computeReturns aligned.2
    if returnsA.length < 3 then
      { correlation := 0, confidence := 0, n := returnsA.length }
    else
      let correlation := pearsonCorrelation returnsA returnsB
      let confidence := min 1 (log10Q (returnsA.length + 1) / log10Q 51)
      { correlation := max (-1) (min 1 correlation), confidence := confidence,
        n := returnsA.length }

/-- `CorrelationEdge` (`correlation.ts`, lines 168–173). -/
structure CorrelationEdge where
  targetId : String
  correlation : ℚ
  confidence : ℚ
  n : ℕ
deriving DecidableEq, Repr

/-- The loop body of `findCorrelatedMarkets` (lines 193–207): one candidate
per history-map entry. -/
def correlationCandidate (targetMarketId : String)
    (targetHistory : List PriceHistoryPoint) (threshold : ℚ)
    (p : String × List PriceHistoryPoint) : Option CorrelationEdge :=
  if p.1 = targetMarketId then none
  else if p.2.length < 5 then none
  else
    let result := computeCorrelation targetHistory p.2
    if threshold ≤ |result.correlation| ∧ (3 : ℚ) / 10 < result.confidence then
      some { targetId := p.1, correlation := result.correlation,
             confidence := result.confidence, n := result.n }
    else none

/-- `findCorrelatedMarkets` (`correlation.ts`, lines 178–213). -/
def findCorrelatedMarkets (targetMarketId : String)
    (allHistories : JsMap (List PriceHistoryPoint))
    (threshold : ℚ) (maxResults : ℕ) : List CorrelationEdge :=
  match jsMapGet allHistories targetMarketId with
  | none => []
  | some targetHistory =>
      if targetHistory.length < 5 then []
      else
        let correlations := allHistories.filterMap
          (correlationCandidate targetMarketId targetHistory threshold)
        (sortDescBy (fun c => |c.correlation|) correlations).take maxResults

/-- `findStructuralDependencies` (`correlation.ts`, lines 218–249): find the
first event containing the target and emit one edge per sibling market. -/
def findStructuralDependencies (targetMarketId : String)
    (events : List ProcessedEvent) : List DependencyEdge :=
  match events.find? (fun ev => (ev.markets.find? (fun m => m.id == targetMarketId)).isSome) with
  | none => []
  | some event =>
      (event.markets.filter (fun m => m.id != targetMarketId)).map (fun market =>
        { id := targetMarketId ++ "-" ++ market.id
          sourceId := targetMarketId
          targetId := market.id
          type := DependencyType.structural
          weight := 1 / 2
          sharedEventId := some event.id
          sharedEventTitle := some event.title })

/-- `buildCorrelationEdges` (`correlation.ts`, lines 254–274). -/
def buildCorrelationEdges (sourceMarketId : String)
    (correlations : List CorrelationEdge) (timeWindow : TimeWindow) :
    List DependencyEdge :=
  correlations.map (fun corr =>
    { id := sourceMarketId ++ "-" ++ corr.targetId
      sourceId := sourceMarketId
      targetId := corr.targetId
      type := DependencyType.correlation
      weight := |corr.correlation|
      correlation := some corr.correlation
      timeWindow := some timeWindow })

/-- `computeVolatility` (`correlation.ts`, lines 280–296). -/
def computeVolatility (history : List PriceHistoryPoint) : ℚ :=
  if history.length < 5 then 0
  else
    let prices := history.map (fun p => p.price)
    let returns := computeReturns prices
    if returns.length < 3 then 0
    else
      let mean := returns.sum / returns.length
      let variance := (returns.map (fun r => (r - mean) * (r - mean))).sum / returns.length
      let stdDev := Rat.sqrt variance
      min 1 (stdDev / (1 / 10))

/-! ## `entities.ts`

The matcher compiled per dictionary entry is
`new RegExp('\\b' + escaped + '\\b', 'i')` where `escaped` is the entry with
regex metacharacters escaped, so the pattern matches the literal entry text,
case-insensitively, between word boundaries.  Every dictionary entry begins
and ends with a word character (`[A-Za-z0-9_]`), so `\b` at each end means:
the neighbouring text character, when present, is a non-word character.
`wordBoundaryTest` below implements exactly that test.  All entries and the
texts in the theorems are ASCII, where JS case-insensitive matching is plain
lower-casing. -/

/-- JS `\w` (word character): `[A-Za-z0-9_]`. -/
def isWordChar (c : Char) : Bool := c.isAlphanum || c = '_'

/-- `toLowerCase()` on the ASCII strings involved (structural, character by
character, so that concrete instances evaluate by kernel reduction). -/
def toLowerStr (s : String) : String := String.mk (s.data.map Char.toLower)

/-- Case-insensitive prefix test on character lists. -/
def startsWithCI : List Char → List Char → Bool
  | [], _ => true
  | _ :: _, [] => false
  | p :: ps, t :: ts => p.toLower = t.toLower && startsWithCI ps ts

/-- After the match, the following character must be absent or a non-word
character. -/
def tailBoundary (l : List Char) : Bool :=
  match l with
  | [] => true
  | c :: _ => !isWordChar c

/-- Scan the text for a boundary-delimited, case-insensitive occurrence of
`pat`; `prev` is the character just before the current position. -/
def boundaryScan (pat : List Char) : Option Char → List Char → Bool
  | _, [] => false
  | prev, t :: ts =>
      (match prev with
       | none => true
       | some c => !isWordChar c) &&
        startsWithCI pat (t :: ts) && tailBoundary ((t :: ts).drop pat.length)
      || boundaryScan pat (some t) ts

/-- `pattern.test(text)` for the compiled matcher of a dictionary `entry`. -/
def wordBoundaryTest (entry text : String) : Bool :=
  boundaryScan entry.data none text.data

/-- `EntityType` (`entities.ts`). -/
inductive EntityType where
  | person
  | company
  | crypto
  | country
  | organization
deriving DecidableEq, Repr

/-- `ExtractedEntity` (`entities.ts`). -/
structure ExtractedEntity where
  name : String
  type : EntityType
  normalized : String
deriving DecidableEq, Repr

/-- `POLITICAL_FIGURES` (`entities.ts`). -/
def POLITICAL_FIGURES : List String :=
  ["Trump", "Biden", "Harris", "DeSantis", "Newsom", "Obama", "Pence",
   "RFK Jr", "Robert Kennedy", "Vivek", "Ramaswamy", "Haley", "Nikki Haley",
   "AOC", "Ocasio-Cortez", "Pelosi", "McConnell", "Schumer", "McCarthy",
   "Musk", "Elon Musk", "Zuckerberg", "Bezos", "Gates", "Bill Gates",
   "Altman", "Sam Altman", "Satya Nadella", "Tim Cook", "Sundar Pichai",
   "Putin", "Xi Jinping", "Xi", "Zelensky", "Netanyahu", "Modi",
   "Macron", "Scholz", "Trudeau", "Lula", "Milei", "Kim Jong Un",
   "Taylor Swift", "Beyonce", "Drake", "Kanye", "Ye", "LeBron",
   "Messi", "Ronaldo", "MrBeast"]

/-- `COMPANIES` (`entities.ts`). -/
def COMPANIES : List String :=
  ["Apple", "Google", "Alphabet", "Microsoft", "Amazon", "Tesla", "Meta",
   "Nvidia", "Netflix", "Disney", "Uber", "Airbnb", "Salesforce",
   "OpenAI", "Anthropic", "DeepMind", "Midjourney", "Stability AI",
   "Twitter", "X Corp", "TikTok", "ByteDance", "Reddit", "Snap", "Pinterest",
   "YouTube", "Twitch", "Spotify",
   "SpaceX", "Blue Origin", "Virgin Galactic", "Rivian", "Lucid", "Ford", "GM",
   "Goldman Sachs", "JPMorgan", "Morgan Stanley", "BlackRock", "Citadel",
   "Robinhood", "Coinbase", "Binance", "FTX", "Stripe", "Visa", "Mastercard",
   "Pfizer", "Moderna", "Johnson & Johnson", "Merck", "Eli Lilly", "Novo Nordisk"]

/-- `CRYPTO_ASSETS` (`entities.ts`). -/
def CRYPTO_ASSETS : List String :=
  ["Bitcoin", "BTC", "Ethereum", "ETH", "Solana", "SOL",
   "XRP", "Ripple", "Cardano", "ADA", "Polkadot", "DOT",
   "Avalanche", "AVAX", "Polygon", "MATIC", "Chainlink", "LINK",
   "Dogecoin", "DOGE", "Shiba Inu", "SHIB", "Pepe", "PEPE",
   "Tether", "USDT", "USDC", "DAI",
   "Uniswap", "UNI", "Aave", "OpenSea", "Blur"]

/-- `COUNTRIES` (`entities.ts`). -/
def COUNTRIES : List String :=
  ["United States", "US", "USA", "America",
   "China", "Chinese", "Russia", "Russian", "Ukraine", "Ukrainian",
   "Israel", "Israeli", "Palestine", "Palestinian", "Gaza",
   "Iran", "Iranian", "North Korea", "South Korea", "Korea",
   "Taiwan", "Japan", "Japanese", "India", "Indian",
   "UK", "Britain", "British", "Germany", "German", "France", "French",
   "Brazil", "Brazilian", "Mexico", "Mexican", "Canada", "Canadian",
   "Australia", "Australian", "Saudi Arabia", "Saudi"]

/-- `ORGANIZATIONS` (`entities.ts`). -/
def ORGANIZATIONS : List String :=
  ["Federal Reserve", "Fed", "Treasury", "SEC", "FDA", "FTC", "DOJ",
   "Supreme Court", "SCOTUS", "Congress", "Senate", "House",
   "White House", "Pentagon", "CIA", "FBI", "NSA",
   "ECB", "Bank of England", "NATO", "UN", "United Nations",
   "WHO", "World Health Organization", "IMF", "World Bank",
   "EU", "European Union", "OPEC", "WTO",
   "NCAA", "NFL", "NBA", "MLB", "FIFA", "UFC",
   "Academy Awards", "Oscars", "Grammy", "Emmy"]

/-- `createEntityMatcher` (`entities.ts`, lines 91–104): a JS `Map` from the
normalized (lower-cased) entry to its display name; the compiled pattern is
recovered from the name by `wordBoundaryTest`. -/
def createEntityMatcher (entities : List String) : JsMap String :=
  entities.foldl (fun m entity => jsMapSet (toLowerStr entity) entity m) []

/-- `PERSON_MATCHERS` (`entities.ts`). -/
def PERSON_MATCHERS : JsMap String := createEntityMatcher POLITICAL_FIGURES

/-- `COMPANY_MATCHERS` (`entities.ts`). -/
def COMPANY_MATCHERS : JsMap String := createEntityMatcher COMPANIES

/-- `CRYPTO_MATCHERS` (`entities.ts`). -/
def CRYPTO_MATCHERS : JsMap String := createEntityMatcher CRYPTO_ASSETS

/-- `COUNTRY_MATCHERS` (`entities.ts`). -/
def COUNTRY_MATCHERS : JsMap String := createEntityMatcher COUNTRIES

/-- `ORG_MATCHERS` (`entities.ts`). -/
def ORG_MATCHERS : JsMap String := createEntityMatcher ORGANIZATIONS

/-- The `matchEntities` helper inside `extractEntities`: fold over one
dictionary's matchers, skipping normalized keys already seen and testing the
pattern against the text. -/
def matchEntities (text : String) (matchers : JsMap String) (type : EntityType)
    (st : List String × List ExtractedEntity) :
    List String × List ExtractedEntity :=
  matchers.foldl (fun st p =>
    if p.1 ∉ st.1 ∧ wordBoundaryTest p.2 text then
      (p.1 :: st.1, st.2 ++ [{ name := p.2, type := type, normalized := p.1 }])
    else st) st

/-- `extractEntities` (`entities.ts`, lines 117–142). -/
def extractEntities (text : String) : List ExtractedEntity :=
  let st : List String × List ExtractedEntity := ([], [])
  let st := matchEntities text PERSON_MATCHERS EntityType.person st
  let st := matchEntities text COMPANY_MATCHERS EntityType.company st
  let st := matchEntities text CRYPTO_MATCHERS EntityType.crypto st
  let st := matchEntities text COUNTRY_MATCHERS EntityType.country st
  let st := matchEntities text ORG_MATCHERS EntityType.organization st
  st.2

/-- `[...new Set(list)]`: deduplicate preserving first occurrences. -/
def listDedup : List String → List String
  | [] => []
  | x :: xs => x :: (listDedup xs).filter (fun y => y != x)

/-- The loop body of `findEntityBasedDependencies` (lines 160–194): one
candidate per catalog market. -/
def entityCandidate (targetMarketId : String)
    (targetEntities : List ExtractedEntity) (targetNormalized : List String)
    (events : List ProcessedEvent) (minSharedEntities : ℕ)
    (market : MarketNode) : Option DependencyEdge :=
  if market.id = targetMarketId then none
  else
    let marketEntities := extractEntities market.question ++
      (match events.find? (fun e => some e.id == market.eventId) with
       | some event => extractEntities event.title
       | none => [])
    let marketNormalized := marketEntities.map (fun e => e.normalized)
    let sharedNormalized := targetNormalized.filter (fun n => n ∈ marketNormalized)
    if minSharedEntities ≤ sharedNormalized.length then
      let sharedNames := sharedNormalized.map (fun n =>
        match targetEntities.find? (fun e => e.normalized == n) with
        | some entity => entity.name
        | none => n)
      some { id := "entity-" ++ targetMarketId ++ "-" ++ market.id
             sourceId := targetMarketId
             targetId := market.id
             type := DependencyType.entity
             weight := min 1 (sharedNormalized.length * (3 / 10 : ℚ))
             sharedEntities := some sharedNames }
    else none

/-- `findEntityBasedDependencies` (`entities.ts`, lines 148–198). -/
def findEntityBasedDependencies (targetMarketId : String)
    (targetEntities : List ExtractedEntity) (allMarkets : List MarketNode)
    (events : List ProcessedEvent) (minSharedEntities : ℕ) :
    List DependencyEdge :=
  if targetEntities.length = 0 then []
  else
    let targetNormalized := listDedup (targetEntities.map (fun e => e.normalized))
    let edges := allMarkets.filterMap
      (entityCandidate targetMarketId targetEntities targetNormalized events minSharedEntities)
    sortDescBy (fun e => e.weight) edges

/-! ## `temporal.ts` -/

/-- `DAY_MS` (`temporal.ts`). -/
def DAY_MS : ℚ := 24 * 60 * 60 * 1000

/-- `TemporalProximity` (`temporal.ts`). -/
structure TemporalProximity where
  daysDiff : ℚ
  precedence : Precedence
deriving DecidableEq, Repr

/-- `computeTemporalProximity` (`temporal.ts`, lines 14–38).  Missing dates
(`undefined` or the falsy empty string) are `none`; unparsable dates are
`some DateStr.invalid` and fail the `isNaN` check. -/
def computeTemporalProximity (endDateA endDateB : Option DateStr) :
    Option TemporalProximity :=
  match endDateA, endDateB with
  | some (DateStr.valid a), some (DateStr.valid b) =>
      let diffMs := b - a
      let daysDiff := |diffMs / DAY_MS|
      let precedence :=
        if |diffMs| < DAY_MS then Precedence.same
        else if diffMs < 0 then Precedence.before
        else Precedence.after
      some { daysDiff := daysDiff, precedence := precedence }
  | _, _ => none

/-- `getMarketEndDate` (`temporal.ts`, lines 77–87). -/
def getMarketEndDate (market : MarketNode) (events : List ProcessedEvent) :
    Option DateStr :=
  match market.endDate with
  | some d => some d
  | none => (events.find? (fun e => some e.id == market.eventId)).bind (fun e => e.endDate)

/-- The loop body of `findTemporalDependencies` (lines 104–129): one
candidate per catalog market. -/
def temporalCandidate (targetMarketId : String) (targetEndDate : Option DateStr)
    (events : List ProcessedEvent) (maxDaysDiff : ℚ)
    (market : MarketNode) : Option DependencyEdge :=
  if market.id = targetMarketId then none
  else
    match computeTemporalProximity targetEndDate (getMarketEndDate market events) with
    | none => none
    | some proximity =>
        if maxDaysDiff < proximity.daysDiff then none
        else
          some { id := "temporal-" ++ targetMarketId ++ "-" ++ market.id
                 sourceId := targetMarketId
                 targetId := market.id
                 type := DependencyType.temporal
                 weight := 1 - proximity.daysDiff / maxDaysDiff
                 daysDiff := some proximity.daysDiff
                 precedence := some proximity.precedence }

/-- `findTemporalDependencies` (`temporal.ts`, lines 93–133). -/
def findTemporalDependencies (targetMarketId : String)
    (targetEndDate : Option DateStr) (allMarkets : List MarketNode)
    (events : List ProcessedEvent) (maxDaysDiff : ℚ) : List DependencyEdge :=
  match targetEndDate with
  | none => []
  | some _ =>
      let edges := allMarkets.filterMap
        (temporalCandidate targetMarketId targetEndDate events maxDaysDiff)
      sortDescBy (fun e => e.weight) edges

/-! ## `useDependencyData.ts` — the graph assembler

The body of the `graph` `useMemo` (lines 138–333) is embedded as a chain of
named stages: one fold per producer pass over the keyed edge/node maps,
followed by the weight sort, the truncation, and the connected-node filter.
The price-history map is taken as an input (the hook obtains it from the
external history provider and keys it by market id). -/

/-- `CATEGORIES` (`categories.ts`). -/
def CATEGORIES : List String :=
  ["Politics", "Sports", "Crypto", "Entertainment", "Science", "Business", "Other"]

/-- `.replace(/\s+/g, '-')`: collapse each maximal whitespace run into one
dash.  The flag records whether the previous character was whitespace. -/
def squashWhitespace : Bool → List Char → List Char
  | _, [] => []
  | prevWs, c :: cs =>
      if c.isWhitespace then
        if prevWs then squashWhitespace true cs
        else '-' :: squashWhitespace true cs
      else c :: squashWhitespace false cs

/-- `getCategoryName` (`useDependencyData.ts`, lines 405–412). -/
def getCategoryName (categoryId : String) : String :=
  match CATEGORIES.find? (fun name =>
    String.mk (squashWhitespace false (toLowerStr name).data) == categoryId) with
  | some name => name
  | none => "Other"

/-- `a || b` on JS strings (empty string is falsy). -/
def jsOrString (a b : String) : String := if a = "" then b else a

/-- `a?.x || b` where the left side is an optional JS string. -/
def jsOrOptString (a : Option String) (b : String) : String :=
  match a with
  | some s => jsOrString s b
  | none => b

/-- `marketToNode` (`useDependencyData.ts`, lines 378–400). -/
def marketToNode (market : MarketNode) (event : Option ProcessedEvent)
    (histories : JsMap (List PriceHistoryPoint)) : DependencyNode :=
  let categoryName := getCategoryName (jsOrOptString (event.map (fun e => e.categoryId)) "other")
  let history := jsMapGet histories market.id
  { id := market.id
    marketId := market.id
    eventId := jsOrOptString market.eventId (jsOrOptString (event.map (fun e => e.id)) "")
    eventTitle := jsOrOptString (event.map (fun e => e.title)) (jsOrString market.group "")
    question := market.question
    volume := market.volume
    volume24hr := market.volume24hr.getD 0
    outcomeProb := market.outcomeProb
    categoryId := jsOrOptString (event.map (fun e => e.categoryId)) "other"
    categoryName := categoryName
    slug := market.slug
    volatility := match history with
      | some h => computeVolatility h
      | none => 0 }

/-- `getEdgePairKey` (`useDependencyData.ts`, lines 147–149).  The JS `<` on
strings is lexicographic; Lean's `String` order is definitionally the
lexicographic order on the character lists, which is what is written here (so
that concrete instances evaluate by kernel reduction). -/
def getEdgePairKey (sourceId targetId : String) : String :=
  if sourceId.data < targetId.data then sourceId ++ "-" ++ targetId
  else targetId ++ "-" ++ sourceId

/-- The two JS `Map`s the assembler accumulates. -/
structure AssemblyState where
  edgeMap : JsMap DependencyEdge
  nodeMap : JsMap DependencyNode
deriving DecidableEq, Repr

/-- The read-only context of one assembly run. -/
structure AssemblyCtx where
  centerMarketId : String
  centerMarket : MarketNode
  centerEvent : Option ProcessedEvent
  filters : DependencyMapFilters
  events : List ProcessedEvent
  allMarkets : List MarketNode
  histories : JsMap (List PriceHistoryPoint)
deriving Repr

/-- `allMarkets` (`useDependencyData.ts`, lines 46–54): every market of every
event, with `eventId` overwritten by the containing event's id. -/
def allMarketsOf (events : List ProcessedEvent) : List MarketNode :=
  events.flatMap (fun event => event.markets.map (fun m => { m with eventId := some event.id }))

/-- Loop body of the structural pass (`useDependencyData.ts`, lines 158–181). -/
def structuralStep (ctx : AssemblyCtx) (st : AssemblyState) (edge : DependencyEdge) :
    AssemblyState :=
  if ctx.filters.showCrossEvent = false ∧
      edge.sharedEventId ≠ ctx.centerEvent.map (fun e => e.id) then st
  else
    let pairKey := getEdgePairKey edge.sourceId edge.targetId
    let edgeMap' :=
      if jsMapHas st.edgeMap pairKey then st.edgeMap
      else jsMapSet pairKey { edge with id := "structural-" ++ pairKey } st.edgeMap
    let nodeMap' :=
      if jsMapHas st.nodeMap edge.targetId then st.nodeMap
      else
        match ctx.allMarkets.find? (fun m => m.id == edge.targetId) with
        | some targetMarket =>
            jsMapSet edge.targetId
              (marketToNode targetMarket
                (ctx.events.find? (fun e => some e.id == targetMarket.eventId)) ctx.histories)
              st.nodeMap
        | none => st.nodeMap
    { edgeMap := edgeMap', nodeMap := nodeMap' }

/-- The structural pass (`useDependencyData.ts`, lines 155–182). -/
def structuralPass (ctx : AssemblyCtx) (st : AssemblyState) : AssemblyState :=
  if ctx.filters.dependencyType = DependencyTypeFilter.all ∨
      ctx.filters.dependencyType = DependencyTypeFilter.structural then
    (findStructuralDependencies ctx.centerMarketId ctx.events).foldl (structuralStep ctx) st
  else st

/-- Loop body of the correlation pass (`useDependencyData.ts`, lines 200–221):
a correlation edge overwrites whatever the pair key held. -/
def correlationStep (ctx : AssemblyCtx) (st : AssemblyState) (edge : DependencyEdge) :
    AssemblyState :=
  let targetMarket := ctx.allMarkets.find? (fun m => m.id == edge.targetId)
  if ctx.filters.showCrossEvent = false ∧
      targetMarket.bind (fun m => m.eventId) ≠ ctx.centerEvent.map (fun e => e.id) then st
  else
    let pairKey := getEdgePairKey edge.sourceId edge.targetId
    let edgeMap' := jsMapSet pairKey { edge with id := "correlation-" ++ pairKey } st.edgeMap
    let nodeMap' :=
      if jsMapHas st.nodeMap edge.targetId then st.nodeMap
      else
        match targetMarket with
        | some tm =>
            jsMapSet edge.targetId
              (marketToNode tm (ctx.events.find? (fun e => some e.id == tm.eventId)) ctx.histories)
              st.nodeMap
        | none => st.nodeMap
    { edgeMap := edgeMap', nodeMap := nodeMap' }

/-- The correlation pass (`useDependencyData.ts`, lines 185–222). -/
def correlationPass (ctx : AssemblyCtx) (st : AssemblyState) : AssemblyState :=
  if (ctx.filters.dependencyType = DependencyTypeFilter.all ∨
      ctx.filters.dependencyType = DependencyTypeFilter.correlation) ∧
      1 < ctx.histories.length then
    let correlations := findCorrelatedMarkets ctx.centerMarketId ctx.histories
      ctx.filters.correlationThreshold ctx.filters.maxEdges
    let correlationEdges := buildCorrelationEdges ctx.centerMarketId correlations
      ctx.filters.timeWindow
    correlationEdges.foldl (correlationStep ctx) st
  else st

/-- Loop body of the entity pass (`useDependencyData.ts`, lines 241–263):
insert only if the pair key is absent; the target node is added inside the
same branch. -/
def entityStep (ctx : AssemblyCtx) (st : AssemblyState) (edge : DependencyEdge) :
    AssemblyState :=
  let targetMarket := ctx.allMarkets.find? (fun m => m.id == edge.targetId)
  if ctx.filters.showCrossEvent = false ∧
      targetMarket.bind (fun m => m.eventId) = ctx.centerEvent.map (fun e => e.id) then st
  else
    let pairKey := getEdgePairKey edge.sourceId edge.targetId
    if jsMapHas st.edgeMap pairKey then st
    else
      let edgeMap' := jsMapSet pairKey { edge with id := "entity-" ++ pairKey } st.edgeMap
      let nodeMap' :=
        if jsMapHas st.nodeMap edge.targetId = false ∧ targetMarket.isSome then
          match targetMarket with
          | some tm =>
              jsMapSet edge.targetId
                (marketToNode tm (ctx.events.find? (fun e => some e.id == tm.eventId)) ctx.histories)
                st.nodeMap
          | none => st.nodeMap
        else st.nodeMap
      { edgeMap := edgeMap', nodeMap := nodeMap' }

/-- The entity pass (`useDependencyData.ts`, lines 225–265). -/
def entityPass (ctx : AssemblyCtx) (st : AssemblyState) : AssemblyState :=
  if ctx.filters.dependencyType = DependencyTypeFilter.all ∨
      ctx.filters.dependencyType = DependencyTypeFilter.entity then
    let centerEntities := extractEntities ctx.centerMarket.question ++
      (match ctx.centerEvent with
       | some e => extractEntities e.title
       | none => [])
    if 0 < centerEntities.length then
      let entityEdges := findEntityBasedDependencies ctx.centerMarketId centerEntities
        ctx.allMarkets ctx.events
        (if ctx.filters.minSharedEntities = 0 then 1 else ctx.filters.minSharedEntities)
      entityEdges.foldl (entityStep ctx) st
    else st
  else st

/-- Loop body of the temporal pass (`useDependencyData.ts`, lines 280–302):
same insert-if-absent shape as the entity pass. -/
def temporalStep (ctx : AssemblyCtx) (st : AssemblyState) (edge : DependencyEdge) :
    AssemblyState :=
  let targetMarket := ctx.allMarkets.find? (fun m => m.id == edge.targetId)
  if ctx.filters.showCrossEvent = false ∧
      targetMarket.bind (fun m => m.eventId) = ctx.centerEvent.map (fun e => e.id) then st
  else
    let pairKey := getEdgePairKey edge.sourceId edge.targetId
    if jsMapHas st.edgeMap pairKey then st
    else
      let edgeMap' := jsMapSet pairKey { edge with id := "temporal-" ++ pairKey } st.edgeMap
      let nodeMap' :=
        if jsMapHas st.nodeMap edge.targetId = false ∧ targetMarket.isSome then
          match targetMarket with
          | some tm =>
              jsMapSet edge.targetId
                (marketToNode tm (ctx.events.find? (fun e => some e.id == tm.eventId)) ctx.histories)
                st.nodeMap
          | none => st.nodeMap
        else st.nodeMap
      { edgeMap := edgeMap', nodeMap := nodeMap' }

/-- The temporal pass (`useDependencyData.ts`, lines 268–304). -/
def temporalPass (ctx : AssemblyCtx) (st : AssemblyState) : AssemblyState :=
  if ctx.filters.dependencyType = DependencyTypeFilter.all ∨
      ctx.filters.dependencyType = DependencyTypeFilter.temporal then
    let centerEndDate :=
      match ctx.centerMarket.endDate with
      | some d => some d
      | none => ctx.centerEvent.bind (fun e => e.endDate)
    match centerEndDate with
    | some _ =>
        let temporalEdges := findTemporalDependencies ctx.centerMarketId centerEndDate
          ctx.allMarkets ctx.events
          (if ctx.filters.maxDaysDiff = 0 then 14 else ctx.filters.maxDaysDiff)
        temporalEdges.foldl (temporalStep ctx) st
    | none => st
  else st

/-- The initial state: the center node is always present. -/
def initialState (ctx : AssemblyCtx) : AssemblyState :=
  { edgeMap := []
    nodeMap := jsMapSet ctx.centerMarketId
      (marketToNode ctx.centerMarket ctx.centerEvent ctx.histories) [] }

/-- The deduplicated maps after all four producer passes. -/
def assembleState (ctx : AssemblyCtx) : AssemblyState :=
  temporalPass ctx (entityPass ctx (correlationPass ctx (structuralPass ctx (initialState ctx))))

/-- Truncation and node filtering (`useDependencyData.ts`, lines 306–333). -/
def finalizeGraph (ctx : AssemblyCtx) (st : AssemblyState) : DependencyGraph :=
  let limitedEdges :=
    (sortDescBy (fun e => e.weight) (jsMapValues st.edgeMap)).take ctx.filters.maxEdges
  let connectedNodeIds :=
    ctx.centerMarketId :: limitedEdges.flatMap (fun e => [e.sourceId, e.targetId])
  let nodes := (jsMapValues st.nodeMap).filter (fun n => connectedNodeIds.contains n.id)
  { nodes := nodes, edges := limitedEdges, centerNodeId := ctx.centerMarketId }

/-- Resolution of the center market and its event (`useDependencyData.ts`,
lines 57–65 and 139): `none` when the id is unknown. -/
def assembleCtxOf (cid : String) (filters : DependencyMapFilters)
    (events : List ProcessedEvent) (histories : JsMap (List PriceHistoryPoint)) :
    Option AssemblyCtx :=
  let allMarkets := allMarketsOf events
  match allMarkets.find? (fun m => m.id == cid) with
  | none => none
  | some centerMarket =>
      let centerEvent := centerMarket.eventId.bind
        (fun eid => events.find? (fun e => e.id == eid))
      some
        { centerMarketId := cid
          centerMarket := centerMarket
          centerEvent := centerEvent
          filters := filters
          events := events
          allMarkets := allMarkets
          histories := histories }

/-- The `graph` computation of `useDependencyData` (lines 138–333): `none`
models the `null` graph returned for a missing or unknown center id. -/
def assembleGraph (centerMarketId : Option String) (filters : DependencyMapFilters)
    (events : List ProcessedEvent) (histories : JsMap (List PriceHistoryPoint)) :
    Option DependencyGraph :=
  match centerMarketId with
  | none => none
  | some cid =>
      match assembleCtxOf cid filters events histories with
      | none => none
      | some ctx => some (finalizeGraph ctx (assembleState ctx))

/-! ## Supporting lemmas -/

/-- Invariant preservation along a left fold. -/
theorem foldl_preserve {σ β : Type} (f : σ → β → σ) (P : σ → Prop) (l : List β)
    (h : ∀ st b, b ∈ l → P st → P (f st b)) (st : σ) (hst : P st) :
    P (l.foldl f st) := by
  induction l generalizing st with
  | nil => simpa using hst
  | cons b bs ih =>
      exact ih (fun st' b' hb' => h st' b' (List.mem_cons_of_mem b hb'))
        (f st b) (h st b (List.mem_cons_self b bs) hst)

/-- Every structural edge has weight `0.5`, type `structural`, source the
target-market id, and carries the first containing event's id and title. -/
theorem structural_edge_shape {t : String} {events : List ProcessedEvent}
    {e : DependencyEdge} (he : e ∈ findStructuralDependencies t events) :
    e.weight = 1 / 2 ∧ e.type = DependencyType.structural ∧ e.sourceId = t ∧
      ∃ ev, events.find? (fun ev => (ev.markets.find? (fun m => m.id == t)).isSome) = some ev ∧
        e.sharedEventId = some ev.id ∧ e.sharedEventTitle = some ev.title ∧
        ∃ m ∈ ev.markets, m.id = e.targetId := by
  unfold findStructuralDependencies at he
  cases hf : events.find? (fun ev => (ev.markets.find? (fun m => m.id == t)).isSome) with
  | none => rw [hf] at he; simp at he
  | some ev =>
      rw [hf] at he
      simp only [List.mem_map, List.mem_filter] at he
      obtain ⟨m, ⟨hm, _⟩, rfl⟩ := he
      exact ⟨rfl, rfl, rfl, ev, rfl, rfl, rfl, m, hm, rfl⟩

/-- Every market of an event of the catalog appears in `allMarketsOf`. -/
theorem mem_allMarketsOf {events : List ProcessedEvent} {ev : ProcessedEvent}
    {m : MarketNode} (hev : ev ∈ events) (hm : m ∈ ev.markets) :
    { m with eventId := some ev.id } ∈ allMarketsOf events := by
  unfold allMarketsOf
  rw [List.mem_flatMap]
  exact ⟨ev, hev, List.mem_map_of_mem _ hm⟩

/-- `find?` by id succeeds whenever some listed market carries the id. -/
theorem find?_id_isSome {l : List MarketNode} {i : String}
    (h : ∃ m ∈ l, m.id = i) : (l.find? (fun m => m.id == i)).isSome := by
  obtain ⟨m, hm, hid⟩ := h
  rw [List.find?_isSome]
  exact ⟨m, hm, by simp [hid]⟩

/-- The market found by id indeed carries the id. -/
theorem find?_id_eq {l : List MarketNode} {i : String} {m : MarketNode}
    (h : l.find? (fun m => m.id == i) = some m) : m.id = i := by
  have := List.find?_some h
  simpa using this

/-- Targets of structural edges are markets of the catalog. -/
theorem structural_target_mem {t : String} {events : List ProcessedEvent}
    {e : DependencyEdge} (he : e ∈ findStructuralDependencies t events) :
    ∃ m ∈ allMarketsOf events, m.id = e.targetId := by
  obtain ⟨-, -, -, ev, hf, -, -, m, hm, hid⟩ := structural_edge_shape he
  have hev : ev ∈ events := List.mem_of_find?_eq_some hf
  exact ⟨{ m with eventId := some ev.id }, mem_allMarketsOf hev hm, hid⟩

/-- Shape of the edges produced by `findCorrelatedMarkets` ∘
`buildCorrelationEdges`: source is the center, the correlation is a clamped
`computeCorrelation` value, the weight is its absolute value, and the target
is a key of the history map distinct from the center. -/
theorem correlation_edge_shape {cid : String}
    {histories : JsMap (List PriceHistoryPoint)} {threshold : ℚ} {maxResults : ℕ}
    {tw : TimeWindow} {e : DependencyEdge}
    (he : e ∈ buildCorrelationEdges cid
      (findCorrelatedMarkets cid histories threshold maxResults) tw) :
    e.type = DependencyType.correlation ∧ e.sourceId = cid ∧
      e.targetId ∈ jsMapKeys histories ∧ e.targetId ≠ cid ∧
      ∃ c, e.correlation = some c ∧ e.weight = |c| ∧
        ∃ hist₁ hist₂, c = (computeCorrelation hist₁ hist₂).correlation := by
  unfold buildCorrelationEdges at he
  simp only [List.mem_map] at he
  obtain ⟨corr, hcorr, rfl⟩ := he
  unfold findCorrelatedMarkets at hcorr
  cases hget : jsMapGet histories cid with
  | none => rw [hget] at hcorr; simp at hcorr
  | some targetHistory =>
      rw [hget] at hcorr
      dsimp only at hcorr
      by_cases hlen : targetHistory.length < 5
      · rw [if_pos hlen] at hcorr; simp at hcorr
      · rw [if_neg hlen] at hcorr
        have hmem := List.mem_of_mem_take hcorr
        rw [mem_sortDescBy] at hmem
        rw [List.mem_filterMap] at hmem
        obtain ⟨p, hp, hcond⟩ := hmem
        unfold correlationCandidate at hcond
        by_cases h₁ : p.1 = cid
        · rw [if_pos h₁] at hcond; simp at hcond
        · rw [if_neg h₁] at hcond
          by_cases h₂ : p.2.length < 5
          · rw [if_pos h₂] at hcond; simp at hcond
          · rw [if_neg h₂] at hcond
            by_cases h₃ : threshold ≤ |(computeCorrelation targetHistory p.2).correlation| ∧
                (3 : ℚ) / 10 < (computeCorrelation targetHistory p.2).confidence
            · rw [if_pos h₃] at hcond
              obtain rfl := Option.some_injective _ hcond
              refine ⟨rfl, rfl, ?_, h₁, (computeCorrelation targetHistory p.2).correlation,
                rfl, rfl, targetHistory, p.2, rfl⟩
              exact List.mem_map_of_mem (fun q => q.1) hp
            · rw [if_neg h₃] at hcond
              simp at hcond

/-- Shape of entity edges: type, source, weight `min 1 (0.3·k)` for the
shared-entity count `k ≥ minShared`, and a catalog target. -/
theorem entity_edge_shape {t : String} {targetEntities : List ExtractedEntity}
    {allMarkets : List MarketNode} {events : List ProcessedEvent}
    {minShared : ℕ} {e : DependencyEdge}
    (he : e ∈ findEntityBasedDependencies t targetEntities allMarkets events minShared) :
    e.type = DependencyType.entity ∧ e.sourceId = t ∧
      (∃ m ∈ allMarkets, m.id = e.targetId ∧ m.id ≠ t) ∧
      ∃ k : ℕ, minShared ≤ k ∧ e.weight = min 1 (k * (3 / 10 : ℚ)) := by
  unfold findEntityBasedDependencies at he
  by_cases h0 : targetEntities.length = 0
  · rw [if_pos h0] at he; simp at he
  · rw [if_neg h0] at he
    rw [mem_sortDescBy, List.mem_filterMap] at he
    obtain ⟨market, hmarket, hcond⟩ := he
    unfold entityCandidate at hcond
    by_cases h₁ : market.id = t
    · rw [if_pos h₁] at hcond; simp at hcond
    · rw [if_neg h₁] at hcond
      dsimp only at hcond
      split at hcond
      · obtain rfl := Option.some_injective _ hcond
        rename_i h₂
        exact ⟨rfl, rfl, ⟨market, hmarket, rfl, h₁⟩, _, h₂, rfl⟩
      · simp at hcond

/-- Shape of temporal edges: type, source, weight `1 − d/maxD` for a day
distance `0 ≤ d ≤ maxD`, and a catalog target. -/
theorem temporal_edge_shape {t : String} {targetEndDate : Option DateStr}
    {allMarkets : List MarketNode} {events : List ProcessedEvent}
    {maxD : ℚ} {e : DependencyEdge}
    (he : e ∈ findTemporalDependencies t targetEndDate allMarkets events maxD) :
    e.type = DependencyType.temporal ∧ e.sourceId = t ∧
      (∃ m ∈ allMarkets, m.id = e.targetId ∧ m.id ≠ t) ∧
      ∃ d : ℚ, 0 ≤ d ∧ d ≤ maxD ∧ e.weight = 1 - d / maxD := by
  unfold findTemporalDependencies at he
  cases targetEndDate with
  | none => simp at he
  | some d₀ =>
      rw [mem_sortDescBy, List.mem_filterMap] at he
      obtain ⟨market, hmarket, hcond⟩ := he
      unfold temporalCandidate at hcond
      by_cases h₁ : market.id = t
      · rw [if_pos h₁] at hcond; simp at hcond
      · rw [if_neg h₁] at hcond
        cases hprox : computeTemporalProximity (some d₀) (getMarketEndDate market events) with
        | none => rw [hprox] at hcond; simp at hcond
        | some proximity =>
            rw [hprox] at hcond
            dsimp only at hcond
            by_cases h₂ : maxD < proximity.daysDiff
            · rw [if_pos h₂] at hcond; simp at hcond
            · rw [if_neg h₂] at hcond
              obtain rfl := Option.some_injective _ hcond
              refine ⟨rfl, rfl, ⟨market, hmarket, rfl, h₁⟩,
                proximity.daysDiff, ?_, le_of_not_lt h₂, rfl⟩
              unfold computeTemporalProximity at hprox
              cases d₀ with
              | invalid => simp at hprox
              | valid a =>
                  cases hmd : getMarketEndDate market events with
                  | none => rw [hmd] at hprox; simp at hprox
                  | some db =>
                      cases db with
                      | invalid => rw [hmd] at hprox; simp at hprox
                      | valid b =>
                          rw [hmd] at hprox
                          obtain rfl := Option.some_injective _ hprox
                          exact abs_nonneg _

theorem log10Q_nonneg (m : ℕ) : 0 ≤ log10Q m := by
  unfold log10Q
  positivity

theorem log10Q_51_pos : 0 < log10Q 51 := by
  unfold log10Q
  have h₁ : 0 < Nat.log 10 (51 ^ 20) := by
    apply Nat.log_pos (by norm_num)
    calc (10 : ℕ) ≤ 51 := by norm_num
      _ ≤ 51 ^ 20 := Nat.le_self_pow (by norm_num) 51
  positivity

/-- The correlation reported by `computeCorrelation` always lies in `[-1, 1]`:
either a degenerate branch returns `0` or the final clamp applies. -/
theorem computeCorrelation_correlation_range (seriesA seriesB : List PriceHistoryPoint) :
    -1 ≤ (computeCorrelation seriesA seriesB).correlation ∧
      (computeCorrelation seriesA seriesB).correlation ≤ 1 := by
  unfold computeCorrelation
  dsimp only
  split
  · norm_num
  · split
    · norm_num
    · constructor
      · exact le_max_left _ _
      · exact max_le (by norm_num) (min_le_left _ _)

/-- The confidence reported by `computeCorrelation` always lies in `[0, 1]`. -/
theorem computeCorrelation_confidence_range (seriesA seriesB : List PriceHistoryPoint) :
    0 ≤ (computeCorrelation seriesA seriesB).confidence ∧
      (computeCorrelation seriesA seriesB).confidence ≤ 1 := by
  unfold computeCorrelation
  dsimp only
  split
  · norm_num
  · split
    · norm_num
    · constructor
      · exact le_min (by norm_num) (div_nonneg (log10Q_nonneg _) (le_of_lt log10Q_51_pos))
      · exact min_le_left _ _

/-- Fewer than five aligned points yield the zero result. -/
theorem computeCorrelation_degenerate (seriesA seriesB : List PriceHistoryPoint)
    (h : (alignTimeSeries seriesA seriesB).1.length < 5) :
    computeCorrelation seriesA seriesB =
      { correlation := 0, confidence := 0, n := (alignTimeSeries seriesA seriesB).1.length } := by
  unfold computeCorrelation
  dsimp only
  rw [if_pos h]

/-- A list whose elements are pairwise equal has zero summed squared
deviation from its mean (with any divisor equal to its length). -/
theorem sumSqDev_eq_zero {l : List ℚ} {n : ℚ} (hn : n = l.length)
    (h : ∀ a ∈ l, ∀ b ∈ l, a = b) :
    (l.map (fun v => (v - l.sum / n) * (v - l.sum / n))).sum = 0 := by
  cases l with
  | nil => simp
  | cons x xs =>
      have hall : ∀ a ∈ x :: xs, a = x :=
        fun a ha => h a ha x (List.mem_cons_self x xs)
      have hsum : (x :: xs).sum = (x :: xs).length • x :=
        List.sum_eq_card_nsmul _ x hall
      have hlenpos : (0 : ℚ) < (x :: xs).length := by
        simp only [List.length_cons]
        positivity
      have hmean : (x :: xs).sum / n = x := by
        rw [hsum, hn, nsmul_eq_mul]
        field_simp
      apply List.sum_eq_zero
      intro v hv
      rw [List.mem_map] at hv
      obtain ⟨a, ha, rfl⟩ := hv
      rw [hmean, hall a ha]
      ring

theorem Rat.sqrt_zero_eq : Rat.sqrt 0 = 0 := by
  have h := Rat.sqrt_eq 0
  simp only [mul_zero, abs_zero] at h
  exact h

/-- Pearson correlation of any array against a constant array is `0` (zero
variance short-circuits through the zero denominator). -/
theorem pearson_eq_zero_of_const {x y : List ℚ}
    (h : (∀ a ∈ x, ∀ b ∈ x, a = b) ∨ ∀ a ∈ y, ∀ b ∈ y, a = b) :
    pearsonCorrelation x y = 0 := by
  unfold pearsonCorrelation
  dsimp only
  split
  · rfl
  · rename_i hguard
    push_neg at hguard
    rcases h with h | h
    · rw [sumSqDev_eq_zero rfl h, zero_mul, Rat.sqrt_zero_eq, if_pos rfl]
    · rw [sumSqDev_eq_zero (by rw [hguard.1]) h, mul_zero, Rat.sqrt_zero_eq, if_pos rfl]

/-- On the non-degenerate path, if either return array is constant the
reported correlation is `0` (confidence untouched). -/
theorem computeCorrelation_const_returns (seriesA seriesB : List PriceHistoryPoint)
    (h : (∀ a ∈ computeReturns (alignTimeSeries seriesA seriesB).1,
            ∀ b ∈ computeReturns (alignTimeSeries seriesA seriesB).1, a = b) ∨
         (∀ a ∈ computeReturns (alignTimeSeries seriesA seriesB).2,
            ∀ b ∈ computeReturns (alignTimeSeries seriesA seriesB).2, a = b)) :
    (computeCorrelation seriesA seriesB).correlation = 0 := by
  unfold computeCorrelation
  dsimp only
  split
  · rfl
  · split
    · rfl
    · rw [pearson_eq_zero_of_const h]
      norm_num

/-- The summed products over swapped zipped lists commute. -/
theorem zip_prod_sum_comm (x y : List ℚ) (mx my : ℚ) :
    ((x.zip y).map (fun p => (p.1 - mx) * (p.2 - my))).sum =
      ((y.zip x).map (fun p => (p.1 - my) * (p.2 - mx))).sum := by
  induction x generalizing y with
  | nil => cases y <;> simp
  | cons a as ih =>
      cases y with
      | nil => simp
      | cons b bs =>
          simp only [List.zip_cons_cons, List.map_cons, List.sum_cons]
          rw [ih bs]
          ring

/-- `pearsonCorrelation` is symmetric in its two arguments. -/
theorem pearsonCorrelation_symm (x y : List ℚ) :
    pearsonCorrelation x y = pearsonCorrelation y x := by
  by_cases hguard : x.length ≠ y.length ∨ x.length < 2
  · have hguard' : y.length ≠ x.length ∨ y.length < 2 := by
      rcases hguard with h | h
      · exact Or.inl (Ne.symm h)
      · rcases eq_or_ne y.length x.length with he | hne
        · exact Or.inr (he ▸ h)
        · exact Or.inl hne
    unfold pearsonCorrelation
    rw [if_pos hguard, if_pos hguard']
  · push_neg at hguard
    obtain ⟨hl, h2⟩ := hguard
    have hguard₁ : ¬(x.length ≠ y.length ∨ x.length < 2) := by
      push_neg
      exact ⟨hl, h2⟩
    have hguard₂ : ¬(y.length ≠ x.length ∨ y.length < 2) := by
      push_neg
      exact ⟨hl.symm, hl ▸ h2⟩
    unfold pearsonCorrelation
    rw [if_neg hguard₁, if_neg hguard₂]
    dsimp only
    rw [← hl]
    set mx := x.sum / (x.length : ℚ) with hmx
    set my := y.sum / (x.length : ℚ) with hmy
    set Sx := (x.map (fun v => (v - mx) * (v - mx))).sum with hSx
    set Sy := (y.map (fun v => (v - my) * (v - my))).sum with hSy
    rw [zip_prod_sum_comm x y mx my, mul_comm Sx Sy]

/-! ### Assembler pass lemmas -/

/-- The structural step never changes an existing binding of the edge map
(structural edges are inserted only when the pair key is absent). -/
theorem structuralStep_preserve_binding (ctx : AssemblyCtx) (st : AssemblyState)
    (edge : DependencyEdge) {k : String} {v : DependencyEdge}
    (h : jsMapGet st.edgeMap k = some v) :
    jsMapGet (structuralStep ctx st edge).edgeMap k = some v := by
  unfold structuralStep
  split
  · exact h
  · dsimp only
    split
    · exact h
    · rename_i hhas
      have hk : k ≠ getEdgePairKey edge.sourceId edge.targetId := by
        intro hc
        subst hc
        exact hhas (by simp [jsMapHas, h])
      rw [jsMapGet_set_ne _ _ _ _ hk]
      exact h

/-- The entity step never changes an existing binding of the edge map. -/
theorem entityStep_preserve_binding (ctx : AssemblyCtx) (st : AssemblyState)
    (edge : DependencyEdge) {k : String} {v : DependencyEdge}
    (h : jsMapGet st.edgeMap k = some v) :
    jsMapGet (entityStep ctx st edge).edgeMap k = some v := by
  unfold entityStep
  dsimp only
  split
  · exact h
  · split
    · exact h
    · rename_i hhas
      have hk : k ≠ getEdgePairKey edge.sourceId edge.targetId := by
        intro hc
        subst hc
        exact hhas (by simp [jsMapHas, h])
      rw [jsMapGet_set_ne _ _ _ _ hk]
      exact h

/-- The temporal step never changes an existing binding of the edge map. -/
theorem temporalStep_preserve_binding (ctx : AssemblyCtx) (st : AssemblyState)
    (edge : DependencyEdge) {k : String} {v : DependencyEdge}
    (h : jsMapGet st.edgeMap k = some v) :
    jsMapGet (temporalStep ctx st edge).edgeMap k = some v := by
  unfold temporalStep
  dsimp only
  split
  · exact h
  · split
    · exact h
    · rename_i hhas
      have hk : k ≠ getEdgePairKey edge.sourceId edge.targetId := by
        intro hc
        subst hc
        exact hhas (by simp [jsMapHas, h])
      rw [jsMapGet_set_ne _ _ _ _ hk]
      exact h

/-- The structural pass never changes an existing binding of the edge map. -/
theorem structuralPass_preserve_binding (ctx : AssemblyCtx) (st : AssemblyState)
    {k : String} {v : DependencyEdge} (h : jsMapGet st.edgeMap k = some v) :
    jsMapGet (structuralPass ctx st).edgeMap k = some v := by
  unfold structuralPass
  split
  · exact foldl_preserve (structuralStep ctx)
      (fun st => jsMapGet st.edgeMap k = some v) _
      (fun st' b _ hb => structuralStep_preserve_binding ctx st' b hb) st h
  · exact h

/-- The entity pass never changes an existing binding of the edge map. -/
theorem entityPass_preserve_binding (ctx : AssemblyCtx) (st : AssemblyState)
    {k : String} {v : DependencyEdge} (h : jsMapGet st.edgeMap k = some v) :
    jsMapGet (entityPass ctx st).edgeMap k = some v := by
  unfold entityPass
  split
  · dsimp only
    split
    · exact foldl_preserve (entityStep ctx)
        (fun st => jsMapGet st.edgeMap k = some v) _
        (fun st' b _ hb => entityStep_preserve_binding ctx st' b hb) st h
    · exact h
  · exact h

/-- The temporal pass never changes an existing binding of the edge map. -/
theorem temporalPass_preserve_binding (ctx : AssemblyCtx) (st : AssemblyState)
    {k : String} {v : DependencyEdge} (h : jsMapGet st.edgeMap k = some v) :
    jsMapGet (temporalPass ctx st).edgeMap k = some v := by
  unfold temporalPass
  split
  · dsimp only
    split
    · exact foldl_preserve (temporalStep ctx)
        (fun st => jsMapGet st.edgeMap k = some v) _
        (fun st' b _ hb => temporalStep_preserve_binding ctx st' b hb) st h
    · exact h
  · exact h

/-- "The pair key holds a correlation edge": the property the correlation
pass establishes and the later passes preserve. -/
def CorrEdgeAt (st : AssemblyState) (p : String) : Prop :=
  ∃ e, jsMapGet st.edgeMap p = some e ∧ e.type = DependencyType.correlation ∧
    e.id = "correlation-" ++ p

/-- A non-skipped correlation step overwrites its pair key with the
correlation edge. -/
theorem correlationStep_establish (ctx : AssemblyCtx) (st : AssemblyState)
    (edge : DependencyEdge)
    (hkeep : ¬(ctx.filters.showCrossEvent = false ∧
      (ctx.allMarkets.find? (fun m => m.id == edge.targetId)).bind (fun m => m.eventId) ≠
        ctx.centerEvent.map (fun e => e.id))) :
    jsMapGet (correlationStep ctx st edge).edgeMap
        (getEdgePairKey edge.sourceId edge.targetId) =
      some { edge with id := "correlation-" ++ getEdgePairKey edge.sourceId edge.targetId } := by
  unfold correlationStep
  dsimp only
  rw [if_neg hkeep]
  exact jsMapGet_set_self _ _ _

/-- A correlation step preserves `CorrEdgeAt` when the stepped edge has
correlation type (it can only overwrite with another correlation edge). -/
theorem correlationStep_preserve_CorrEdgeAt (ctx : AssemblyCtx) (st : AssemblyState)
    (edge : DependencyEdge) (htype : edge.type = DependencyType.correlation)
    {p : String} (h : CorrEdgeAt st p) : CorrEdgeAt (correlationStep ctx st edge) p := by
  obtain ⟨e, hget, het, heid⟩ := h
  unfold correlationStep
  dsimp only
  split
  · exact ⟨e, hget, het, heid⟩
  · by_cases hp : getEdgePairKey edge.sourceId edge.targetId = p
    · refine ⟨{ edge with id := "correlation-" ++ getEdgePairKey edge.sourceId edge.targetId },
        ?_, htype, by rw [hp]⟩
      rw [← hp]
      exact jsMapGet_set_self _ _ _
    · refine ⟨e, ?_, het, heid⟩
      rw [jsMapGet_set_ne _ _ _ _ (Ne.symm hp)]
      exact hget

/-- Folding the correlation step over a list of correlation-typed edges, one
of which survives the cross-event filter, leaves a correlation edge at that
edge's pair key. -/
theorem correlationFold_CorrEdgeAt (ctx : AssemblyCtx) (l : List DependencyEdge)
    (htypes : ∀ e ∈ l, e.type = DependencyType.correlation)
    {ec : DependencyEdge} (hmem : ec ∈ l)
    (hkeep : ¬(ctx.filters.showCrossEvent = false ∧
      (ctx.allMarkets.find? (fun m => m.id == ec.targetId)).bind (fun m => m.eventId) ≠
        ctx.centerEvent.map (fun e => e.id)))
    (st : AssemblyState) :
    CorrEdgeAt (l.foldl (correlationStep ctx) st)
      (getEdgePairKey ec.sourceId ec.targetId) := by
  induction l generalizing st with
  | nil => simp at hmem
  | cons e rest ih =>
      rcases List.mem_cons.mp hmem with rfl | hmem'
      · have hbase : CorrEdgeAt (correlationStep ctx st ec)
            (getEdgePairKey ec.sourceId ec.targetId) :=
          ⟨_, correlationStep_establish ctx st ec hkeep,
            htypes ec (List.mem_cons_self ec rest), rfl⟩
        exact foldl_preserve (correlationStep ctx) (fun st => CorrEdgeAt st _) rest
          (fun st' b hb h => correlationStep_preserve_CorrEdgeAt ctx st' b
            (htypes b (List.mem_cons_of_mem ec hb)) h) _ hbase
      · exact ih (fun e' he' => htypes e' (List.mem_cons_of_mem e he')) hmem' _

/-- Edge-map well-formedness: distinct keys, every binding's pair key equals
its map key. -/
def EdgeMapWF (st : AssemblyState) : Prop :=
  (jsMapKeys st.edgeMap).Nodup ∧
    ∀ k e, jsMapGet st.edgeMap k = some e → getEdgePairKey e.sourceId e.targetId = k

/-- Inserting an edge at its own pair key preserves well-formedness. -/
theorem edgeMapWF_set {st : AssemblyState} (h : EdgeMapWF st)
    (edge : DependencyEdge) (newId : String) (nm : JsMap DependencyNode) :
    EdgeMapWF { edgeMap := jsMapSet (getEdgePairKey edge.sourceId edge.targetId)
                  { edge with id := newId } st.edgeMap, nodeMap := nm } := by
  obtain ⟨hnd, hpk⟩ := h
  constructor
  · exact jsMapKeys_nodup_set _ _ hnd
  · intro k e hk
    by_cases hkey : k = getEdgePairKey edge.sourceId edge.targetId
    · subst hkey
      rw [jsMapGet_set_self] at hk
      obtain rfl := Option.some_injective _ hk.symm
      rfl
    · rw [jsMapGet_set_ne _ _ _ _ hkey] at hk
      exact hpk k e hk

/-- All four step functions preserve edge-map well-formedness. -/
theorem structuralStep_WF (ctx : AssemblyCtx) (st : AssemblyState)
    (edge : DependencyEdge) (h : EdgeMapWF st) : EdgeMapWF (structuralStep ctx st edge) := by
  unfold structuralStep
  split
  · exact h
  · dsimp only
    split
    · exact ⟨h.1, h.2⟩
    · exact edgeMapWF_set h edge _ _

theorem correlationStep_WF (ctx : AssemblyCtx) (st : AssemblyState)
    (edge : DependencyEdge) (h : EdgeMapWF st) : EdgeMapWF (correlationStep ctx st edge) := by
  unfold correlationStep
  dsimp only
  split
  · exact h
  · exact edgeMapWF_set h edge _ _

theorem entityStep_WF (ctx : AssemblyCtx) (st : AssemblyState)
    (edge : DependencyEdge) (h : EdgeMapWF st) : EdgeMapWF (entityStep ctx st edge) := by
  unfold entityStep
  dsimp only
  split
  · exact h
  · split
    · exact h
    · exact edgeMapWF_set h edge _ _

theorem temporalStep_WF (ctx : AssemblyCtx) (st : AssemblyState)
    (edge : DependencyEdge) (h : EdgeMapWF st) : EdgeMapWF (temporalStep ctx st edge) := by
  unfold temporalStep
  dsimp only
  split
  · exact h
  · split
    · exact h
    · exact edgeMapWF_set h edge _ _

/-- The deduplicated edge map of any assembly is well-formed. -/
theorem assembleState_WF (ctx : AssemblyCtx) : EdgeMapWF (assembleState ctx) := by
  have h0 : EdgeMapWF (initialState ctx) := by
    constructor
    · simp [initialState, jsMapKeys]
    · intro k e hk
      simp [initialState, jsMapGet] at hk
  have h1 : EdgeMapWF (structuralPass ctx (initialState ctx)) := by
    unfold structuralPass
    split
    · exact foldl_preserve _ EdgeMapWF _ (fun st b _ h => structuralStep_WF ctx st b h) _ h0
    · exact h0
  have h2 : EdgeMapWF (correlationPass ctx (structuralPass ctx (initialState ctx))) := by
    unfold correlationPass
    split
    · exact foldl_preserve _ EdgeMapWF _ (fun st b _ h => correlationStep_WF ctx st b h) _ h1
    · exact h1
  have h3 : EdgeMapWF (entityPass ctx (correlationPass ctx (structuralPass ctx (initialState ctx)))) := by
    unfold entityPass
    split
    · dsimp only
      split
      · exact foldl_preserve _ EdgeMapWF _ (fun st b _ h => entityStep_WF ctx st b h) _ h2
      · exact h2
    · exact h2
  unfold assembleState
  unfold temporalPass
  split
  · dsimp only
    split
    · exact foldl_preserve _ EdgeMapWF _ (fun st b _ h => temporalStep_WF ctx st b h) _ h3
    · exact h3
  · exact h3

/-! ### Weight invariant -/

/-- Every edge stored in the map has weight in `[0, 1]`. -/
def EdgeWeightsOK (m : JsMap DependencyEdge) : Prop :=
  ∀ e ∈ jsMapValues m, 0 ≤ e.weight ∧ e.weight ≤ 1

theorem edgeWeightsOK_set {m : JsMap DependencyEdge} (h : EdgeWeightsOK m)
    {edge : DependencyEdge} (hw : 0 ≤ edge.weight ∧ edge.weight ≤ 1)
    (k newId : String) : EdgeWeightsOK (jsMapSet k { edge with id := newId } m) := by
  intro e he
  rcases mem_values_jsMapSet he with rfl | he'
  · exact hw
  · exact h e he'

theorem structuralPass_weights (ctx : AssemblyCtx) (st : AssemblyState)
    (h : EdgeWeightsOK st.edgeMap) : EdgeWeightsOK (structuralPass ctx st).edgeMap := by
  unfold structuralPass
  split
  · refine foldl_preserve (structuralStep ctx) (fun st => EdgeWeightsOK st.edgeMap) _
      ?_ st h
    intro st' b hb hst'
    obtain ⟨hw, -⟩ := structural_edge_shape hb
    unfold structuralStep
    split
    · exact hst'
    · dsimp only
      split
      · exact hst'
      · exact edgeWeightsOK_set hst' (by rw [hw]; norm_num) _ _
  · exact h

theorem correlationPass_weights (ctx : AssemblyCtx) (st : AssemblyState)
    (h : EdgeWeightsOK st.edgeMap) : EdgeWeightsOK (correlationPass ctx st).edgeMap := by
  unfold correlationPass
  split
  · refine foldl_preserve (correlationStep ctx) (fun st => EdgeWeightsOK st.edgeMap) _
      ?_ st h
    intro st' b hb hst'
    obtain ⟨-, -, -, -, c, -, hwc, h₁, h₂, hc⟩ := correlation_edge_shape hb
    have hrange := computeCorrelation_correlation_range h₁ h₂
    have hw : 0 ≤ b.weight ∧ b.weight ≤ 1 := by
      rw [hwc, hc]
      exact ⟨abs_nonneg _, abs_le.mpr ⟨hrange.1, hrange.2⟩⟩
    unfold correlationStep
    dsimp only
    split
    · exact hst'
    · exact edgeWeightsOK_set hst' hw _ _
  · exact h

theorem entityPass_weights (ctx : AssemblyCtx) (st : AssemblyState)
    (h : EdgeWeightsOK st.edgeMap) : EdgeWeightsOK (entityPass ctx st).edgeMap := by
  unfold entityPass
  split
  · dsimp only
    split
    · refine foldl_preserve (entityStep ctx) (fun st => EdgeWeightsOK st.edgeMap) _
        ?_ st h
      intro st' b hb hst'
      obtain ⟨-, -, -, k, -, hwk⟩ := entity_edge_shape hb
      have hw : 0 ≤ b.weight ∧ b.weight ≤ 1 := by
        rw [hwk]
        constructor
        · exact le_min (by norm_num) (mul_nonneg (Nat.cast_nonneg k) (by norm_num))
        · exact min_le_left _ _
      unfold entityStep
      dsimp only
      split
      · exact hst'
      · split
        · exact hst'
        · exact edgeWeightsOK_set hst' hw _ _
    · exact h
  · exact h

theorem temporalPass_weights (ctx : AssemblyCtx) (st : AssemblyState)
    (h : EdgeWeightsOK st.edgeMap) : EdgeWeightsOK (temporalPass ctx st).edgeMap := by
  unfold temporalPass
  split
  · dsimp only
    split
    · refine foldl_preserve (temporalStep ctx) (fun st => EdgeWeightsOK st.edgeMap) _
        ?_ st h
      intro st' b hb hst'
      obtain ⟨-, -, -, d, hd0, hdm, hwd⟩ := temporal_edge_shape hb
      have hmax : (0 : ℚ) < (if ctx.filters.maxDaysDiff = 0 then 14 else ctx.filters.maxDaysDiff) := by
        rcases (le_trans hd0 hdm).lt_or_eq with hlt | heq
        · exact hlt
        · exfalso
          split at heq
          · norm_num at heq
          · rename_i h0
            exact h0 heq.symm
      have hw : 0 ≤ b.weight ∧ b.weight ≤ 1 := by
        rw [hwd]
        constructor
        · have : d / (if ctx.filters.maxDaysDiff = 0 then 14 else ctx.filters.maxDaysDiff) ≤ 1 :=
            (div_le_one hmax).mpr hdm
          linarith
        · have : 0 ≤ d / (if ctx.filters.maxDaysDiff = 0 then 14 else ctx.filters.maxDaysDiff) :=
            div_nonneg hd0 (le_of_lt hmax)
          linarith
      unfold temporalStep
      dsimp only
      split
      · exact hst'
      · split
        · exact hst'
        · exact edgeWeightsOK_set hst' hw _ _
    · exact h
  · exact h

/-- All edges held by the deduplicated edge map have weight in `[0, 1]`. -/
theorem assembleState_weights (ctx : AssemblyCtx) :
    EdgeWeightsOK (assembleState ctx).edgeMap := by
  unfold assembleState
  apply temporalPass_weights
  apply entityPass_weights
  apply correlationPass_weights
  apply structuralPass_weights
  intro e he
  simp [initialState, jsMapValues] at he

/-! ### Node coverage invariant -/

/-- Every stored edge has the center as its source and a node for its
target; the center has a node; node bindings are id-consistent. -/
def StateInv (cid : String) (st : AssemblyState) : Prop :=
  (∀ e ∈ jsMapValues st.edgeMap, e.sourceId = cid ∧ (jsMapGet st.nodeMap e.targetId).isSome) ∧
    (jsMapGet st.nodeMap cid).isSome ∧
    ∀ k v, jsMapGet st.nodeMap k = some v → v.id = k

theorem nodeConsistent_set {nm : JsMap DependencyNode}
    (h : ∀ k v, jsMapGet nm k = some v → v.id = k) {key : String}
    {node : DependencyNode} (hid : node.id = key) :
    ∀ k v, jsMapGet (jsMapSet key node nm) k = some v → v.id = k := by
  intro k v hk
  by_cases hkey : k = key
  · subst hkey
    rw [jsMapGet_set_self] at hk
    obtain rfl := Option.some_injective _ hk.symm
    exact hid
  · rw [jsMapGet_set_ne _ _ _ _ hkey] at hk
    exact h k v hk

/-- Keeping the edge map and extending the node map monotonely preserves the
invariant. -/
theorem stateInv_keepEdges {cid : String} {st : AssemblyState}
    (h : StateInv cid st) {nm : JsMap DependencyNode}
    (hmono : ∀ k, (jsMapGet st.nodeMap k).isSome → (jsMapGet nm k).isSome)
    (hcons : ∀ k v, jsMapGet nm k = some v → v.id = k) :
    StateInv cid { edgeMap := st.edgeMap, nodeMap := nm } := by
  refine ⟨?_, hmono cid h.2.1, hcons⟩
  intro e he
  obtain ⟨hs, ht⟩ := h.1 e he
  exact ⟨hs, hmono _ ht⟩

/-- Adding one edge whose source is the center and whose target has a node
preserves the invariant. -/
theorem stateInv_addEdge {cid : String} {st : AssemblyState}
    (h : StateInv cid st) {edge : DependencyEdge} (hsrc : edge.sourceId = cid)
    (key newId : String) {nm : JsMap DependencyNode}
    (hmono : ∀ k, (jsMapGet st.nodeMap k).isSome → (jsMapGet nm k).isSome)
    (htgtSome : (jsMapGet nm edge.targetId).isSome)
    (hcons : ∀ k v, jsMapGet nm k = some v → v.id = k) :
    StateInv cid { edgeMap := jsMapSet key { edge with id := newId } st.edgeMap,
                   nodeMap := nm } := by
  refine ⟨?_, hmono cid h.2.1, hcons⟩
  intro e he
  rcases mem_values_jsMapSet he with rfl | he'
  · exact ⟨hsrc, htgtSome⟩
  · obtain ⟨hs, ht⟩ := h.1 e he'
    exact ⟨hs, hmono _ ht⟩

theorem structuralStep_StateInv (ctx : AssemblyCtx) (st : AssemblyState)
    (edge : DependencyEdge) (hsrc : edge.sourceId = ctx.centerMarketId)
    (htgt : ∃ m ∈ ctx.allMarkets, m.id = edge.targetId)
    (h : StateInv ctx.centerMarketId st) :
    StateInv ctx.centerMarketId (structuralStep ctx st edge) := by
  unfold structuralStep
  split
  · exact h
  · dsimp only
    have hfind : (ctx.allMarkets.find? (fun m => m.id == edge.targetId)).isSome :=
      find?_id_isSome htgt
    obtain ⟨tm, htm⟩ := Option.isSome_iff_exists.mp hfind
    rw [htm]
    have htmid : tm.id = edge.targetId := find?_id_eq htm
    split
    · rename_i hhasE
      split
      · rename_i hhasN
        exact stateInv_keepEdges h (fun k hk => hk) h.2.2
      · exact stateInv_keepEdges h
          (fun k hk => jsMapGet_set_isSome_of_isSome hk _ _)
          (nodeConsistent_set h.2.2 htmid)
    · split
      · rename_i hhasN
        exact stateInv_addEdge h hsrc _ _ (fun k hk => hk)
          (by simpa [jsMapHas] using hhasN) h.2.2
      · exact stateInv_addEdge h hsrc _ _
          (fun k hk => jsMapGet_set_isSome_of_isSome hk _ _)
          (by rw [jsMapGet_set_self]; rfl)
          (nodeConsistent_set h.2.2 htmid)

theorem correlationStep_StateInv (ctx : AssemblyCtx) (st : AssemblyState)
    (edge : DependencyEdge) (hsrc : edge.sourceId = ctx.centerMarketId)
    (htgt : ∃ m ∈ ctx.allMarkets, m.id = edge.targetId)
    (h : StateInv ctx.centerMarketId st) :
    StateInv ctx.centerMarketId (correlationStep ctx st edge) := by
  unfold correlationStep
  dsimp only
  split
  · exact h
  · have hfind : (ctx.allMarkets.find? (fun m => m.id == edge.targetId)).isSome :=
      find?_id_isSome htgt
    obtain ⟨tm, htm⟩ := Option.isSome_iff_exists.mp hfind
    rw [htm]
    have htmid : tm.id = edge.targetId := find?_id_eq htm
    split
    · rename_i hhasN
      exact stateInv_addEdge h hsrc _ _ (fun k hk => hk)
        (by simpa [jsMapHas] using hhasN) h.2.2
    · exact stateInv_addEdge h hsrc _ _
        (fun k hk => jsMapGet_set_isSome_of_isSome hk _ _)
        (by rw [jsMapGet_set_self]; rfl)
        (nodeConsistent_set h.2.2 htmid)

theorem entityStep_StateInv (ctx : AssemblyCtx) (st : AssemblyState)
    (edge : DependencyEdge) (hsrc : edge.sourceId = ctx.centerMarketId)
    (htgt : ∃ m ∈ ctx.allMarkets, m.id = edge.targetId)
    (h : StateInv ctx.centerMarketId st) :
    StateInv ctx.centerMarketId (entityStep ctx st edge) := by
  unfold entityStep
  dsimp only
  split
  · exact h
  · split
    · exact h
    · have hfind : (ctx.allMarkets.find? (fun m => m.id == edge.targetId)).isSome :=
        find?_id_isSome htgt
      obtain ⟨tm, htm⟩ := Option.isSome_iff_exists.mp hfind
      rw [htm]
      have htmid : tm.id = edge.targetId := find?_id_eq htm
      split
      · exact stateInv_addEdge h hsrc _ _
          (fun k hk => jsMapGet_set_isSome_of_isSome hk _ _)
          (by rw [jsMapGet_set_self]; rfl)
          (nodeConsistent_set h.2.2 htmid)
      · rename_i hcond
        simp only [Option.isSome_some, and_true, Bool.not_eq_false] at hcond
        exact stateInv_addEdge h hsrc _ _ (fun k hk => hk)
          (by simpa [jsMapHas] using hcond) h.2.2

theorem temporalStep_StateInv (ctx : AssemblyCtx) (st : AssemblyState)
    (edge : DependencyEdge) (hsrc : edge.sourceId = ctx.centerMarketId)
    (htgt : ∃ m ∈ ctx.allMarkets, m.id = edge.targetId)
    (h : StateInv ctx.centerMarketId st) :
    StateInv ctx.centerMarketId (temporalStep ctx st edge) := by
  unfold temporalStep
  dsimp only
  split
  · exact h
  · split
    · exact h
    · have hfind : (ctx.allMarkets.find? (fun m => m.id == edge.targetId)).isSome :=
        find?_id_isSome htgt
      obtain ⟨tm, htm⟩ := Option.isSome_iff_exists.mp hfind
      rw [htm]
      have htmid : tm.id = edge.targetId := find?_id_eq htm
      split
      · exact stateInv_addEdge h hsrc _ _
          (fun k hk => jsMapGet_set_isSome_of_isSome hk _ _)
          (by rw [jsMapGet_set_self]; rfl)
          (nodeConsistent_set h.2.2 htmid)
      · rename_i hcond
        simp only [Option.isSome_some, and_true, Bool.not_eq_false] at hcond
        exact stateInv_addEdge h hsrc _ _ (fun k hk => hk)
          (by simpa [jsMapHas] using hcond) h.2.2

/-- The full assembly maintains the node coverage invariant, given that every
history key denotes a catalog market. -/
theorem assembleState_StateInv (ctx : AssemblyCtx)
    (hAM : ctx.allMarkets = allMarketsOf ctx.events)
    (hhist : ∀ k ∈ jsMapKeys ctx.histories, ∃ m ∈ ctx.allMarkets, m.id = k)
    (hcenter : ctx.centerMarket.id = ctx.centerMarketId) :
    StateInv ctx.centerMarketId (assembleState ctx) := by
  have h0 : StateInv ctx.centerMarketId (initialState ctx) := by
    refine ⟨?_, ?_, ?_⟩
    · intro e he
      simp [initialState, jsMapValues] at he
    · simp [initialState, jsMapGet_set_self]
    · exact nodeConsistent_set (by intro k v hk; simp [jsMapGet] at hk) hcenter
  have h1 : StateInv ctx.centerMarketId (structuralPass ctx (initialState ctx)) := by
    unfold structuralPass
    split
    · refine foldl_preserve _ (StateInv ctx.centerMarketId) _ ?_ _ h0
      intro st b hb hst
      obtain ⟨-, -, hsrc, -⟩ := structural_edge_shape hb
      exact structuralStep_StateInv ctx st b hsrc
        (hAM ▸ structural_target_mem hb) hst
    · exact h0
  have h2 : StateInv ctx.centerMarketId
      (correlationPass ctx (structuralPass ctx (initialState ctx))) := by
    unfold correlationPass
    split
    · refine foldl_preserve _ (StateInv ctx.centerMarketId) _ ?_ _ h1
      intro st b hb hst
      obtain ⟨-, hsrc, hkey, -⟩ := correlation_edge_shape hb
      exact correlationStep_StateInv ctx st b hsrc (hhist _ hkey) hst
    · exact h1
  have h3 : StateInv ctx.centerMarketId
      (entityPass ctx (correlationPass ctx (structuralPass ctx (initialState ctx)))) := by
    unfold entityPass
    split
    · dsimp only
      split
      · refine foldl_preserve _ (StateInv ctx.centerMarketId) _ ?_ _ h2
        intro st b hb hst
        obtain ⟨-, hsrc, ⟨m, hm, hmid, -⟩, -⟩ := entity_edge_shape hb
        exact entityStep_StateInv ctx st b hsrc ⟨m, hm, hmid⟩ hst
      · exact h2
    · exact h2
  unfold assembleState temporalPass
  split
  · dsimp only
    split
    · refine foldl_preserve _ (StateInv ctx.centerMarketId) _ ?_ _ h3
      intro st b hb hst
      obtain ⟨-, hsrc, ⟨m, hm, hmid, -⟩, -⟩ := temporal_edge_shape hb
      exact temporalStep_StateInv ctx st b hsrc ⟨m, hm, hmid⟩ hst
    · exact h3
  · exact h3

/-! ### Finalization lemmas -/

theorem string_contains_iff {l : List String} {a : String} :
    l.contains a = true ↔ a ∈ l := by
  simp

/-- Edges of the final graph come from the deduplicated edge map. -/
theorem finalizeGraph_edges_sub (ctx : AssemblyCtx) (st : AssemblyState) :
    ∀ e ∈ (finalizeGraph ctx st).edges, e ∈ jsMapValues st.edgeMap := by
  intro e he
  unfold finalizeGraph at he
  dsimp only at he
  exact (mem_sortDescBy _ _ e).mp (List.mem_of_mem_take he)

/-- The final edge list is sorted by weight, descending. -/
theorem finalizeGraph_edges_sorted (ctx : AssemblyCtx) (st : AssemblyState) :
    (finalizeGraph ctx st).edges.Pairwise (fun a b => b.weight ≤ a.weight) := by
  unfold finalizeGraph
  dsimp only
  exact (pairwise_sortDescBy _ _).sublist (List.take_sublist _ _)

/-- When the candidates exceed the budget, exactly `maxEdges` survive. -/
theorem finalizeGraph_edges_length (ctx : AssemblyCtx) (st : AssemblyState)
    (h : ctx.filters.maxEdges < (jsMapValues st.edgeMap).length) :
    (finalizeGraph ctx st).edges.length = ctx.filters.maxEdges := by
  unfold finalizeGraph
  dsimp only
  rw [List.length_take, length_sortDescBy]
  exact min_eq_left (le_of_lt h)

/-- Every retained edge outweighs every truncated candidate. -/
theorem finalizeGraph_edges_top (ctx : AssemblyCtx) (st : AssemblyState) :
    ∀ e ∈ (finalizeGraph ctx st).edges,
      ∀ e' ∈ (sortDescBy (fun e => e.weight) (jsMapValues st.edgeMap)).drop ctx.filters.maxEdges,
        e'.weight ≤ e.weight := by
  intro e he e' he'
  have hp := pairwise_sortDescBy (fun e : DependencyEdge => e.weight) (jsMapValues st.edgeMap)
  rw [← List.take_append_drop ctx.filters.maxEdges
    (sortDescBy (fun e => e.weight) (jsMapValues st.edgeMap))] at hp
  have := (List.pairwise_append.mp hp).2.2
  unfold finalizeGraph at he
  dsimp only at he
  exact this e he e' he'

/-- Membership in the final node list. -/
theorem finalizeGraph_nodes_mem (ctx : AssemblyCtx) (st : AssemblyState)
    {n : DependencyNode} :
    n ∈ (finalizeGraph ctx st).nodes ↔
      n ∈ jsMapValues st.nodeMap ∧
        (n.id = ctx.centerMarketId ∨
          ∃ e ∈ (finalizeGraph ctx st).edges, n.id = e.sourceId ∨ n.id = e.targetId) := by
  unfold finalizeGraph
  dsimp only
  rw [List.mem_filter]
  constructor
  · rintro ⟨hmem, hcontains⟩
    refine ⟨hmem, ?_⟩
    have := string_contains_iff.mp hcontains
    rcases List.mem_cons.mp this with hc | hc
    · exact Or.inl hc
    · rw [List.mem_flatMap] at hc
      obtain ⟨e, he, hne⟩ := hc
      refine Or.inr ⟨e, he, ?_⟩
      rcases List.mem_cons.mp hne with h | h
      · exact Or.inl h
      · exact Or.inr (by simpa using h)
  · rintro ⟨hmem, hor⟩
    refine ⟨hmem, string_contains_iff.mpr ?_⟩
    rcases hor with h | ⟨e, he, h⟩
    · exact h ▸ List.mem_cons_self _ _
    · refine List.mem_cons_of_mem _ ?_
      rw [List.mem_flatMap]
      refine ⟨e, he, ?_⟩
      rcases h with h | h
      · exact h ▸ List.mem_cons_self _ _
      · simp [h]

/-- Under the state invariant, no final edge dangles: both endpoints have a
node in the final node list. -/
theorem finalizeGraph_no_dangling (ctx : AssemblyCtx) (st : AssemblyState)
    (h : StateInv ctx.centerMarketId st) :
    ∀ e ∈ (finalizeGraph ctx st).edges,
      (∃ n ∈ (finalizeGraph ctx st).nodes, n.id = e.sourceId) ∧
      (∃ n ∈ (finalizeGraph ctx st).nodes, n.id = e.targetId) := by
  intro e he
  obtain ⟨hsrc, htgt⟩ := h.1 e (finalizeGraph_edges_sub ctx st e he)
  constructor
  · obtain ⟨v, hv⟩ := Option.isSome_iff_exists.mp h.2.1
    have hvid : v.id = ctx.centerMarketId := h.2.2 _ _ hv
    refine ⟨v, ?_, by rw [hvid, hsrc]⟩
    exact (finalizeGraph_nodes_mem ctx st).mpr
      ⟨mem_values_of_jsMapGet hv, Or.inl hvid⟩
  · obtain ⟨v, hv⟩ := Option.isSome_iff_exists.mp htgt
    have hvid : v.id = e.targetId := h.2.2 _ _ hv
    refine ⟨v, ?_, hvid⟩
    exact (finalizeGraph_nodes_mem ctx st).mpr
      ⟨mem_values_of_jsMapGet hv, Or.inr ⟨e, he, Or.inr hvid⟩⟩

/-- The center always keeps a node in the final graph. -/
theorem finalizeGraph_center_node (ctx : AssemblyCtx) (st : AssemblyState)
    (h : StateInv ctx.centerMarketId st) :
    ∃ n ∈ (finalizeGraph ctx st).nodes, n.id = ctx.centerMarketId := by
  obtain ⟨v, hv⟩ := Option.isSome_iff_exists.mp h.2.1
  have hvid : v.id = ctx.centerMarketId := h.2.2 _ _ hv
  exact ⟨v, (finalizeGraph_nodes_mem ctx st).mpr
    ⟨mem_values_of_jsMapGet hv, Or.inl hvid⟩, hvid⟩

/-! ### Cross-event filter invariant (with cross-event disabled) -/

/-- The event (id) of an edge target as the assembler resolves it. -/
def targetEventIdOf (ctx : AssemblyCtx) (e : DependencyEdge) : Option String :=
  (ctx.allMarkets.find? (fun m => m.id == e.targetId)).bind (fun m => m.eventId)

/-- With cross-event disabled: entity/temporal edges in the map point outside
the center's event, correlation edges point inside it. -/
def CrossEventInv (ctx : AssemblyCtx) (st : AssemblyState) : Prop :=
  ∀ e ∈ jsMapValues st.edgeMap,
    ((e.type = DependencyType.entity ∨ e.type = DependencyType.temporal) →
      targetEventIdOf ctx e ≠ ctx.centerEvent.map (fun ev => ev.id)) ∧
    (e.type = DependencyType.correlation →
      targetEventIdOf ctx e = ctx.centerEvent.map (fun ev => ev.id))

theorem structuralStep_CrossEventInv (ctx : AssemblyCtx) (st : AssemblyState)
    (edge : DependencyEdge) (htype : edge.type = DependencyType.structural)
    (h : CrossEventInv ctx st) : CrossEventInv ctx (structuralStep ctx st edge) := by
  unfold structuralStep
  split
  · exact h
  · dsimp only
    intro e he
    split at he
    · exact h e he
    · rcases mem_values_jsMapSet he with rfl | he'
      · constructor
        · intro hc
          rcases hc with hc | hc <;> rw [htype] at hc <;> exact absurd hc (by simp)
        · intro hc
          rw [htype] at hc
          exact absurd hc (by simp)
      · exact h e he'

theorem correlationStep_CrossEventInv (ctx : AssemblyCtx) (st : AssemblyState)
    (edge : DependencyEdge) (htype : edge.type = DependencyType.correlation)
    (hcross : ctx.filters.showCrossEvent = false)
    (h : CrossEventInv ctx st) : CrossEventInv ctx (correlationStep ctx st edge) := by
  unfold correlationStep
  dsimp only
  split
  · exact h
  · rename_i hkeep
    intro e he
    rcases mem_values_jsMapSet he with rfl | he'
    · constructor
      · intro hc
        rcases hc with hc | hc <;> rw [htype] at hc <;> exact absurd hc (by simp)
      · intro _
        have := not_and.mp hkeep hcross
        rw [not_not] at this
        exact this
    · exact h e he'

theorem entityStep_CrossEventInv (ctx : AssemblyCtx) (st : AssemblyState)
    (edge : DependencyEdge) (htype : edge.type = DependencyType.entity)
    (hcross : ctx.filters.showCrossEvent = false)
    (h : CrossEventInv ctx st) : CrossEventInv ctx (entityStep ctx st edge) := by
  unfold entityStep
  dsimp only
  split
  · exact h
  · rename_i hkeep
    split
    · exact h
    · intro e he
      split at he
      all_goals {
        rcases mem_values_jsMapSet he with rfl | he'
        · constructor
          · intro _
            exact not_and.mp hkeep hcross
          · intro hc
            rw [htype] at hc
            exact absurd hc (by simp)
        · exact h e he' }

theorem temporalStep_CrossEventInv (ctx : AssemblyCtx) (st : AssemblyState)
    (edge : DependencyEdge) (htype : edge.type = DependencyType.temporal)
    (hcross : ctx.filters.showCrossEvent = false)
    (h : CrossEventInv ctx st) : CrossEventInv ctx (temporalStep ctx st edge) := by
  unfold temporalStep
  dsimp only
  split
  · exact h
  · rename_i hkeep
    split
    · exact h
    · intro e he
      split at he
      all_goals {
        rcases mem_values_jsMapSet he with rfl | he'
        · constructor
          · intro _
            exact not_and.mp hkeep hcross
          · intro hc
            rw [htype] at hc
            exact absurd hc (by simp)
        · exact h e he' }

/-- The deduplicated edge map satisfies the cross-event invariant whenever
cross-event inclusion is disabled. -/
theorem assembleState_CrossEventInv (ctx : AssemblyCtx)
    (hcross : ctx.filters.showCrossEvent = false) :
    CrossEventInv ctx (assembleState ctx) := by
  have h0 : CrossEventInv ctx (initialState ctx) := by
    intro e he
    simp [initialState, jsMapValues] at he
  have h1 : CrossEventInv ctx (structuralPass ctx (initialState ctx)) := by
    unfold structuralPass
    split
    · refine foldl_preserve _ (CrossEventInv ctx) _ ?_ _ h0
      intro st b hb hst
      obtain ⟨-, htype, -⟩ := structural_edge_shape hb
      exact structuralStep_CrossEventInv ctx st b htype hst
    · exact h0
  have h2 : CrossEventInv ctx
      (correlationPass ctx (structuralPass ctx (initialState ctx))) := by
    unfold correlationPass
    split
    · refine foldl_preserve _ (CrossEventInv ctx) _ ?_ _ h1
      intro st b hb hst
      obtain ⟨htype, -⟩ := correlation_edge_shape hb
      exact correlationStep_CrossEventInv ctx st b htype hcross hst
    · exact h1
  have h3 : CrossEventInv ctx
      (entityPass ctx (correlationPass ctx (structuralPass ctx (initialState ctx)))) := by
    unfold entityPass
    split
    · dsimp only
      split
      · refine foldl_preserve _ (CrossEventInv ctx) _ ?_ _ h2
        intro st b hb hst
        obtain ⟨htype, -⟩ := entity_edge_shape hb
        exact entityStep_CrossEventInv ctx st b htype hcross hst
      · exact h2
    · exact h2
  unfold assembleState temporalPass
  split
  · dsimp only
    split
    · refine foldl_preserve _ (CrossEventInv ctx) _ ?_ _ h3
      intro st b hb hst
      obtain ⟨htype, -⟩ := temporal_edge_shape hb
      exact temporalStep_CrossEventInv ctx st b htype hcross hst
    · exact h3
  · exact h3

/-! ### Entity extraction: the `seen` set deduplicates normalized keys -/

/-- Invariant of one dictionary fold inside `extractEntities`: collected
normalized keys are distinct and recorded in `seen`. -/
def SeenInv (st : List String × List ExtractedEntity) : Prop :=
  (st.2.map (fun e => e.normalized)).Nodup ∧
    ∀ n ∈ st.2.map (fun e => e.normalized), n ∈ st.1

theorem matchEntities_SeenInv (text : String) (matchers : JsMap String)
    (type : EntityType) (st : List String × List ExtractedEntity)
    (h : SeenInv st) : SeenInv (matchEntities text matchers type st) := by
  unfold matchEntities
  refine foldl_preserve _ SeenInv _ ?_ st h
  intro st' p _ hst'
  dsimp only
  split
  · rename_i hcond
    constructor
    · rw [List.map_append]
      refine List.Nodup.append hst'.1 (by simp) ?_
      intro a ha hb
      simp at hb
      subst hb
      exact hcond.1 (hst'.2 _ ha)
    · intro n hn
      rw [List.map_append, List.mem_append] at hn
      rcases hn with hn | hn
      · exact List.mem_cons_of_mem _ (hst'.2 n hn)
      · simp at hn
        simp [hn]
  · exact hst'

/-- The entity list returned by `extractEntities` never contains two entries
with the same normalized key. -/
theorem extractEntities_nodup (text : String) :
    ((extractEntities text).map (fun e => e.normalized)).Nodup := by
  have h : SeenInv (([] : List String), ([] : List ExtractedEntity)) := by
    constructor <;> simp
  exact (matchEntities_SeenInv text ORG_MATCHERS EntityType.organization _
    (matchEntities_SeenInv text COUNTRY_MATCHERS EntityType.country _
      (matchEntities_SeenInv text CRYPTO_MATCHERS EntityType.crypto _
        (matchEntities_SeenInv text COMPANY_MATCHERS EntityType.company _
          (matchEntities_SeenInv text PERSON_MATCHERS EntityType.person _ h))))).1

/-! ### Context inversion -/

/-- The center's event as the hook resolves it (lines 62–65). -/
def centerEventOf (cid : String) (events : List ProcessedEvent) : Option ProcessedEvent :=
  ((allMarketsOf events).find? (fun m => m.id == cid)).bind
    (fun centerMarket => centerMarket.eventId.bind
      (fun eid => events.find? (fun e => e.id == eid)))

theorem assembleCtxOf_inv {cid : String} {filters : DependencyMapFilters}
    {events : List ProcessedEvent} {histories : JsMap (List PriceHistoryPoint)}
    {ctx : AssemblyCtx} (h : assembleCtxOf cid filters events histories = some ctx) :
    ctx.centerMarketId = cid ∧ ctx.filters = filters ∧ ctx.events = events ∧
      ctx.histories = histories ∧ ctx.allMarkets = allMarketsOf events ∧
      ctx.centerEvent = centerEventOf cid events ∧ ctx.centerMarket.id = cid := by
  unfold assembleCtxOf at h
  dsimp only at h
  cases hf : (allMarketsOf events).find? (fun m => m.id == cid) with
  | none => rw [hf] at h; simp at h
  | some centerMarket =>
      rw [hf] at h
      dsimp only at h
      obtain rfl := Option.some_injective _ h
      refine ⟨rfl, rfl, rfl, rfl, rfl, ?_, find?_id_eq hf⟩
      unfold centerEventOf
      rw [hf]
      rfl

theorem assembleGraph_inv {cid : String} {filters : DependencyMapFilters}
    {events : List ProcessedEvent} {histories : JsMap (List PriceHistoryPoint)}
    {g : DependencyGraph}
    (h : assembleGraph (some cid) filters events histories = some g) :
    ∃ ctx, assembleCtxOf cid filters events histories = some ctx ∧
      g = finalizeGraph ctx (assembleState ctx) := by
  unfold assembleGraph at h
  dsimp only at h
  cases hc : assembleCtxOf cid filters events histories with
  | none => rw [hc] at h; simp at h
  | some ctx =>
      rw [hc] at h
      dsimp only at h
      obtain rfl := Option.some_injective _ h
      exact ⟨ctx, rfl, rfl⟩

/-! ## Concrete scenario data and evaluation lemmas -/

/-- Linear ramp series: prices 1..6 at timestamps 0..5. -/
def serA : List PriceHistoryPoint := [⟨0, 1⟩, ⟨1, 2⟩, ⟨2, 3⟩, ⟨3, 4⟩, ⟨4, 5⟩, ⟨5, 6⟩]

/-- Two-point series matching `serA` at the ends (its interpolation equals
`serA` on the overlap). -/
def serB : List PriceHistoryPoint := [⟨0, 1⟩, ⟨5, 6⟩]

/-- Two-point constant series. -/
def serBc : List PriceHistoryPoint := [⟨0, 1⟩, ⟨5, 1⟩]

theorem align_serA_serB : alignTimeSeries serA serB = ([1, 2, 3, 4, 5, 6], [1, 2, 3, 4, 5, 6]) := by
  norm_num [serA, serB, alignTimeSeries, sortAscBy, insertAscBy, alignLoop,
    interpolateAtTime, interpScan]

theorem align_serB_serA : alignTimeSeries serB serA = ([1, 6], [1, 6]) := by
  norm_num [serA, serB, alignTimeSeries, sortAscBy, insertAscBy, alignLoop,
    interpolateAtTime, interpScan]

theorem align_serA_serBc : alignTimeSeries serA serBc = ([1, 2, 3, 4, 5, 6], [1, 1, 1, 1, 1, 1]) := by
  norm_num [serA, serBc, alignTimeSeries, sortAscBy, insertAscBy, alignLoop,
    interpolateAtTime, interpScan]

theorem returns_ramp : computeReturns [1, 2, 3, 4, 5, 6] = [1, 1/2, 1/3, 1/4, 1/5] := by
  norm_num [computeReturns]

theorem returns_const : computeReturns [1, 1, 1, 1, 1, 1] = [0, 0, 0, 0, 0] := by
  norm_num [computeReturns]

theorem log10Q_6 : log10Q 6 = 3/4 := by
  unfold log10Q
  rw [Nat.log_eq_of_pow_le_of_lt_pow (b := 10) (m := 15) (n := 6 ^ 20) (by norm_num) (by norm_num)]
  norm_num

theorem log10Q_5 : log10Q 5 = 13/20 := by
  unfold log10Q
  rw [Nat.log_eq_of_pow_le_of_lt_pow (b := 10) (m := 13) (n := 5 ^ 20) (by norm_num) (by norm_num)]
  norm_num

theorem log10Q_51 : log10Q 51 = 17/10 := by
  unfold log10Q
  rw [Nat.log_eq_of_pow_le_of_lt_pow (b := 10) (m := 34) (n := 51 ^ 20) (by norm_num) (by norm_num)]
  norm_num

theorem pearson_ramp_self :
    pearsonCorrelation [1, 1/2, 1/3, 1/4, 1/5] [1, 1/2, 1/3, 1/4, 1/5] = 1 := by
  unfold pearsonCorrelation
  rw [if_neg (by norm_num)]
  dsimp only
  have hsum : ([1, 1/2, 1/3, 1/4, 1/5] : List ℚ).sum = 137/60 := by norm_num
  have hlen : (([1, 1/2, 1/3, 1/4, 1/5] : List ℚ).length : ℚ) = 5 := by norm_num
  rw [hsum, hlen]
  have hS : (([1, 1/2, 1/3, 1/4, 1/5] : List ℚ).map
      (fun v => (v - 137/60/5) * (v - 137/60/5))).sum = 947/2250 := by
    norm_num
  have hnum : ((([1, 1/2, 1/3, 1/4, 1/5] : List ℚ).zip [1, 1/2, 1/3, 1/4, 1/5]).map
      (fun p => (p.1 - 137/60/5) * (p.2 - 137/60/5))).sum = 947/2250 := by
    norm_num [List.zip]
  rw [hS, hnum]
  rw [show (947/2250 : ℚ) * (947/2250) = (947/2250) * (947/2250) from rfl, Rat.sqrt_eq,
    show |(947/2250 : ℚ)| = 947/2250 from abs_of_pos (by norm_num)]
  rw [if_neg (by norm_num)]
  norm_num

/-- `computeCorrelation` on the ramp against its two-point envelope: perfect
correlation `1`, confidence `log10(6)/log10(51)` under the `log10` model. -/
theorem corr_serA_serB :
    computeCorrelation serA serB = { correlation := 1, confidence := 15/34, n := 5 } := by
  unfold computeCorrelation
  rw [align_serA_serB]
  dsimp only
  rw [if_neg (by norm_num)]
  rw [returns_ramp]
  rw [if_neg (by norm_num)]
  rw [pearson_ramp_self]
  norm_num [log10Q_6, log10Q_51]

/-- Swapped arguments: series B has only two points inside the overlap, so
alignment yields two points and the degenerate zero result. -/
theorem corr_serB_serA :
    computeCorrelation serB serA = { correlation := 0, confidence := 0, n := 2 } := by
  unfold computeCorrelation
  rw [align_serB_serA]
  norm_num

/-- The ramp against the constant series: zero variance on the right return
array, so correlation `0` — but the confidence is the usual sample-size value,
not `0`. -/
theorem corr_serA_serBc :
    computeCorrelation serA serBc = { correlation := 0, confidence := 15/34, n := 5 } := by
  unfold computeCorrelation
  rw [align_serA_serBc]
  dsimp only
  rw [if_neg (by norm_num)]
  rw [returns_ramp, returns_const]
  rw [if_neg (by norm_num)]
  rw [pearson_eq_zero_of_const (Or.inr ?_)]
  · norm_num [log10Q_6, log10Q_51]
  · intro a ha b hb
    simp at ha hb
    rw [ha, hb]

/-! ### Entity extraction on concrete texts (evaluated one dictionary at a
time; the five-dictionary chain is too deep for one kernel reduction) -/

set_option maxRecDepth 20000

/-- The extracted "Trump" entity. -/
def trumpEnt : ExtractedEntity :=
  { name := "Trump", type := EntityType.person, normalized := "trump" }

/-- The extracted "Fed" entity. -/
def fedEnt : ExtractedEntity :=
  { name := "Fed", type := EntityType.organization, normalized := "fed" }

theorem exq_p : matchEntities "q" PERSON_MATCHERS EntityType.person ([], []) = ([], []) := by decide

theorem exq_c : matchEntities "q" COMPANY_MATCHERS EntityType.company ([], []) = ([], []) := by decide

theorem exq_cr : matchEntities "q" CRYPTO_MATCHERS EntityType.crypto ([], []) = ([], []) := by decide

theorem exq_co : matchEntities "q" COUNTRY_MATCHERS EntityType.country ([], []) = ([], []) := by decide

theorem exq_o : matchEntities "q" ORG_MATCHERS EntityType.organization ([], []) = ([], []) := by decide

/-- No dictionary entry occurs in the text `"q"`. -/
theorem extract_q : extractEntities "q" = [] := by
  show (matchEntities "q" ORG_MATCHERS EntityType.organization
    (matchEntities "q" COUNTRY_MATCHERS EntityType.country
      (matchEntities "q" CRYPTO_MATCHERS EntityType.crypto
        (matchEntities "q" COMPANY_MATCHERS EntityType.company
          (matchEntities "q" PERSON_MATCHERS EntityType.person ([], [])))))).2 = []
  rw [exq_p, exq_c, exq_cr, exq_co, exq_o]

theorem extr_p : matchEntities "Trump" PERSON_MATCHERS EntityType.person ([], []) =
    (["trump"], [trumpEnt]) := by decide

theorem extr_c : matchEntities "Trump" COMPANY_MATCHERS EntityType.company
    (["trump"], [trumpEnt]) = (["trump"], [trumpEnt]) := by decide

theorem extr_cr : matchEntities "Trump" CRYPTO_MATCHERS EntityType.crypto
    (["trump"], [trumpEnt]) = (["trump"], [trumpEnt]) := by decide

theorem extr_co : matchEntities "Trump" COUNTRY_MATCHERS EntityType.country
    (["trump"], [trumpEnt]) = (["trump"], [trumpEnt]) := by decide

theorem extr_o : matchEntities "Trump" ORG_MATCHERS EntityType.organization
    (["trump"], [trumpEnt]) = (["trump"], [trumpEnt]) := by decide

/-- The text `"Trump"` yields exactly the Trump person entity. -/
theorem extract_trump : extractEntities "Trump" = [trumpEnt] := by
  show (matchEntities "Trump" ORG_MATCHERS EntityType.organization
    (matchEntities "Trump" COUNTRY_MATCHERS EntityType.country
      (matchEntities "Trump" CRYPTO_MATCHERS EntityType.crypto
        (matchEntities "Trump" COMPANY_MATCHERS EntityType.company
          (matchEntities "Trump" PERSON_MATCHERS EntityType.person ([], [])))))).2 = [trumpEnt]
  rw [extr_p, extr_c, extr_cr, extr_co, extr_o]

theorem extf_p : matchEntities "Trump and the Fed" PERSON_MATCHERS EntityType.person ([], []) =
    (["trump"], [trumpEnt]) := by decide

theorem extf_c : matchEntities "Trump and the Fed" COMPANY_MATCHERS EntityType.company
    (["trump"], [trumpEnt]) = (["trump"], [trumpEnt]) := by decide

theorem extf_cr : matchEntities "Trump and the Fed" CRYPTO_MATCHERS EntityType.crypto
    (["trump"], [trumpEnt]) = (["trump"], [trumpEnt]) := by decide

theorem extf_co : matchEntities "Trump and the Fed" COUNTRY_MATCHERS EntityType.country
    (["trump"], [trumpEnt]) = (["trump"], [trumpEnt]) := by decide

theorem extf_o : matchEntities "Trump and the Fed" ORG_MATCHERS EntityType.organization
    (["trump"], [trumpEnt]) = (["fed", "trump"], [trumpEnt, fedEnt]) := by decide

/-- The text `"Trump and the Fed"` yields the Trump person entity and the Fed
organization entity. -/
theorem extract_trump_fed : extractEntities "Trump and the Fed" = [trumpEnt, fedEnt] := by
  show (matchEntities "Trump and the Fed" ORG_MATCHERS EntityType.organization
    (matchEntities "Trump and the Fed" COUNTRY_MATCHERS EntityType.country
      (matchEntities "Trump and the Fed" CRYPTO_MATCHERS EntityType.crypto
        (matchEntities "Trump and the Fed" COMPANY_MATCHERS EntityType.company
          (matchEntities "Trump and the Fed" PERSON_MATCHERS EntityType.person ([], [])))))).2 =
    [trumpEnt, fedEnt]
  rw [extf_p, extf_c, extf_cr, extf_co, extf_o]

theorem exto_p : matchEntities "xTrump and the Fedx" PERSON_MATCHERS EntityType.person ([], []) =
    ([], []) := by decide

theorem exto_c : matchEntities "xTrump and the Fedx" COMPANY_MATCHERS EntityType.company
    ([], []) = ([], []) := by decide

theorem exto_cr : matchEntities "xTrump and the Fedx" CRYPTO_MATCHERS EntityType.crypto
    ([], []) = ([], []) := by decide

theorem exto_co : matchEntities "xTrump and the Fedx" COUNTRY_MATCHERS EntityType.country
    ([], []) = ([], []) := by decide

theorem exto_o : matchEntities "xTrump and the Fedx" ORG_MATCHERS EntityType.organization
    ([], []) = ([], []) := by decide

/-- In `"xTrump and the Fedx"` neither "Trump" nor "Fed" occurs at a word
boundary, and no dictionary entry matches: the result is empty. -/
theorem extract_xtfx : extractEntities "xTrump and the Fedx" = [] := by
  show (matchEntities "xTrump and the Fedx" ORG_MATCHERS EntityType.organization
    (matchEntities "xTrump and the Fedx" COUNTRY_MATCHERS EntityType.country
      (matchEntities "xTrump and the Fedx" CRYPTO_MATCHERS EntityType.crypto
        (matchEntities "xTrump and the Fedx" COMPANY_MATCHERS EntityType.company
          (matchEntities "xTrump and the Fedx" PERSON_MATCHERS EntityType.person ([], [])))))).2 = []
  rw [exto_p, exto_c, exto_cr, exto_co, exto_o]

/-! ### Scenario S1: three markets alone in one event, structural-only filters
(the concrete instance named in C8) -/

/-- Market "A" of the structural trio. -/
def s1A : MarketNode := { id := "A", question := "q" }

/-- Market "B" of the structural trio. -/
def s1B : MarketNode := { id := "B", question := "q" }

/-- Market "C" of the structural trio. -/
def s1C : MarketNode := { id := "C", question := "q" }

/-- The single event holding the trio. -/
def s1Event : ProcessedEvent := { id := "E1", title := "q", markets := [s1A, s1B, s1C] }

/-- Structural-only filters with a generous edge limit. -/
def s1Filters : DependencyMapFilters :=
  { correlationThreshold := 1, timeWindow := TimeWindow.h24,
    dependencyType := DependencyTypeFilter.structural, showCrossEvent := true,
    maxEdges := 5, minSharedEntities := 1, maxDaysDiff := 14 }

/-- The resolved assembly context for center "A". -/
def s1ctx : AssemblyCtx :=
  { centerMarketId := "A", centerMarket := { s1A with eventId := some "E1" },
    centerEvent := some s1Event, filters := s1Filters, events := [s1Event],
    allMarkets := allMarketsOf [s1Event], histories := [] }

theorem s1ctx_eval : assembleCtxOf "A" s1Filters [s1Event] [] = some s1ctx := rfl

/-- The structural edge A-B produced in scenario S1. -/
def e1AB : DependencyEdge :=
  { id := "structural-A-B", sourceId := "A", targetId := "B",
    type := DependencyType.structural, weight := 1/2,
    sharedEventId := some "E1", sharedEventTitle := some "q" }

/-- The structural edge A-C produced in scenario S1. -/
def e1AC : DependencyEdge :=
  { id := "structural-A-C", sourceId := "A", targetId := "C",
    type := DependencyType.structural, weight := 1/2,
    sharedEventId := some "E1", sharedEventTitle := some "q" }

/-- Node for market A in scenario S1. -/
def n1A : DependencyNode := marketToNode { s1A with eventId := some "E1" } (some s1Event) []

/-- Node for market B in scenario S1. -/
def n1B : DependencyNode := marketToNode { s1B with eventId := some "E1" } (some s1Event) []

/-- Node for market C in scenario S1. -/
def n1C : DependencyNode := marketToNode { s1C with eventId := some "E1" } (some s1Event) []

/-- The deduplicated maps after the four passes in scenario S1. -/
def s1st : AssemblyState :=
  { edgeMap := [("A-B", e1AB), ("A-C", e1AC)],
    nodeMap := [("A", n1A), ("B", n1B), ("C", n1C)] }

theorem s1_state_eval : assembleState s1ctx = s1st := rfl

theorem s1_sort : sortDescBy (fun e => e.weight) [e1AB, e1AC] = [e1AB, e1AC] := by
  show insertDescBy (fun e => e.weight) e1AB (insertDescBy (fun e => e.weight) e1AC []) =
    [e1AB, e1AC]
  rw [show insertDescBy (fun e => e.weight) e1AC [] = [e1AC] from rfl]
  unfold insertDescBy
  rw [if_pos (by norm_num [e1AB, e1AC])]

/-- The assembled graph of scenario S1: exactly the two structural edges. -/
def g1 : DependencyGraph :=
  { nodes := [n1A, n1B, n1C], edges := [e1AB, e1AC], centerNodeId := "A" }

theorem s1_graph : assembleGraph (some "A") s1Filters [s1Event] [] = some g1 := by
  show some (finalizeGraph s1ctx (assembleState s1ctx)) = some g1
  rw [s1_state_eval]
  unfold finalizeGraph
  rw [show jsMapValues s1st.edgeMap = [e1AB, e1AC] from rfl]
  rw [s1_sort]
  rfl

/-! ### Scenario S2: the same trio with price histories for A and B and
`maxEdges := 1` (the truncation/overwrite instance used for C1) -/

/-- Price history for market A: up 1,2,4 then down 2,1. -/
def histA : List PriceHistoryPoint := [⟨0, 1⟩, ⟨1, 2⟩, ⟨2, 4⟩, ⟨3, 2⟩, ⟨4, 1⟩]

/-- Price history for market B: alternating 1,2,1,2,1. -/
def histB : List PriceHistoryPoint := [⟨0, 1⟩, ⟨1, 2⟩, ⟨2, 1⟩, ⟨3, 2⟩, ⟨4, 1⟩]

theorem align_hAB : alignTimeSeries histA histB = ([1, 2, 4, 2, 1], [1, 2, 1, 2, 1]) := by
  norm_num [histA, histB, alignTimeSeries, sortAscBy, insertAscBy, alignLoop,
    interpolateAtTime, interpScan]

theorem pearson_hAB : pearsonCorrelation [1, 1, -1/2, -1/2] [1, -1/2, 1, -1/2] = 0 := by
  unfold pearsonCorrelation
  rw [if_neg (by norm_num)]
  dsimp only
  have h1 : ([1, 1, -1/2, -1/2] : List ℚ).sum = 1 := by norm_num
  have h2 : ([1, -1/2, 1, -1/2] : List ℚ).sum = 1 := by norm_num
  have hl : ((([1, 1, -1/2, -1/2] : List ℚ)).length : ℚ) = 4 := by norm_num
  rw [h1, h2, hl]
  have hnum : ((([1, 1, -1/2, -1/2] : List ℚ).zip [1, -1/2, 1, -1/2]).map
      (fun p => (p.1 - 1/4) * (p.2 - 1/4))).sum = 0 := by
    norm_num [List.zip]
  have hSx : (([1, 1, -1/2, -1/2] : List ℚ).map (fun v => (v - 1/4) * (v - 1/4))).sum = 9/4 := by
    norm_num
  have hSy : (([1, -1/2, 1, -1/2] : List ℚ).map (fun v => (v - 1/4) * (v - 1/4))).sum = 9/4 := by
    norm_num
  rw [hnum, hSx, hSy]
  rw [show (9/4 : ℚ) * (9/4) = (9/4) * (9/4) from rfl, Rat.sqrt_eq,
    show |(9/4 : ℚ)| = 9/4 from abs_of_pos (by norm_num)]
  rw [if_neg (by norm_num)]
  norm_num

/-- The two scenario histories are uncorrelated: correlation `0` with the
usual sample-size confidence for `n = 4`. -/
theorem corr_hAB : computeCorrelation histA histB =
    { correlation := 0, confidence := 13/34, n := 4 } := by
  unfold computeCorrelation
  rw [align_hAB]
  dsimp only
  rw [if_neg (by norm_num)]
  rw [show computeReturns [1, 2, 4, 2, 1] = [1, 1, -1/2, -1/2] by norm_num [computeReturns],
      show computeReturns [1, 2, 1, 2, 1] = [1, -1/2, 1, -1/2] by norm_num [computeReturns]]
  rw [if_neg (by norm_num)]
  rw [pearson_hAB]
  norm_num [log10Q_5, log10Q_51]

/-- The price-history map of scenario S2. -/
def s2Hist : JsMap (List PriceHistoryPoint) := [("A", histA), ("B", histB)]

/-- Filters of scenario S2: all types, zero threshold, `maxEdges := 1`. -/
def s2Filters : DependencyMapFilters :=
  { correlationThreshold := 0, timeWindow := TimeWindow.h24,
    dependencyType := DependencyTypeFilter.all, showCrossEvent := true,
    maxEdges := 1, minSharedEntities := 1, maxDaysDiff := 14 }

/-- The resolved assembly context of scenario S2. -/
def s2ctx : AssemblyCtx :=
  { centerMarketId := "A", centerMarket := { s1A with eventId := some "E1" },
    centerEvent := some s1Event, filters := s2Filters, events := [s1Event],
    allMarkets := allMarketsOf [s1Event], histories := s2Hist }

theorem s2ctx_eval : assembleCtxOf "A" s2Filters [s1Event] s2Hist = some s2ctx := rfl

/-- Structural edge A-B of scenario S2 (same as S1's). -/
def e2AB : DependencyEdge :=
  { id := "structural-A-B", sourceId := "A", targetId := "B",
    type := DependencyType.structural, weight := 1/2,
    sharedEventId := some "E1", sharedEventTitle := some "q" }

/-- Structural edge A-C of scenario S2. -/
def e2AC : DependencyEdge :=
  { id := "structural-A-C", sourceId := "A", targetId := "C",
    type := DependencyType.structural, weight := 1/2,
    sharedEventId := some "E1", sharedEventTitle := some "q" }

/-- The correlation candidate found for target B. -/
def c2B : CorrelationEdge := { targetId := "B", correlation := 0, confidence := 13/34, n := 4 }

/-- The correlation edge for pair A-B as produced by `buildCorrelationEdges`
(before the assembler renames its id). -/
def ec2ABraw : DependencyEdge :=
  { id := "A-B", sourceId := "A", targetId := "B",
    type := DependencyType.correlation, weight := |(0 : ℚ)|,
    correlation := some 0, timeWindow := some TimeWindow.h24 }

/-- The correlation edge for pair A-B as stored by the assembler. -/
def ec2AB : DependencyEdge :=
  { id := "correlation-A-B", sourceId := "A", targetId := "B",
    type := DependencyType.correlation, weight := |(0 : ℚ)|,
    correlation := some 0, timeWindow := some TimeWindow.h24 }

/-- Node for market A in scenario S2. -/
def n2A : DependencyNode := marketToNode { s1A with eventId := some "E1" } (some s1Event) s2Hist

/-- Node for market B in scenario S2. -/
def n2B : DependencyNode := marketToNode { s1B with eventId := some "E1" } (some s1Event) s2Hist

/-- Node for market C in scenario S2. -/
def n2C : DependencyNode := marketToNode { s1C with eventId := some "E1" } (some s1Event) s2Hist

theorem s2_candA : correlationCandidate "A" histA 0 ("A", histA) = none := by
  unfold correlationCandidate
  rw [if_pos rfl]

theorem s2_candB : correlationCandidate "A" histA 0 ("B", histB) = some c2B := by
  unfold correlationCandidate
  rw [corr_hAB]
  rw [if_neg (by decide), if_neg (by norm_num [histB])]
  dsimp only
  rw [if_pos (by norm_num)]
  rfl

theorem s2_fcm : findCorrelatedMarkets "A" s2Hist 0 1 = [c2B] := by
  unfold findCorrelatedMarkets s2Hist
  rw [show jsMapGet [("A", histA), ("B", histB)] "A" = some histA from rfl]
  dsimp only
  rw [if_neg (by norm_num [histA])]
  rw [List.filterMap_cons, s2_candA, List.filterMap_cons, s2_candB, List.filterMap_nil]
  rfl

/-- State after the structural pass of scenario S2. -/
def s2st1 : AssemblyState :=
  { edgeMap := [("A-B", e2AB), ("A-C", e2AC)],
    nodeMap := [("A", n2A), ("B", n2B), ("C", n2C)] }

theorem s2_struct : structuralPass s2ctx (initialState s2ctx) = s2st1 := rfl

/-- State after the correlation pass: the correlation edge has overwritten the
structural edge at key "A-B", in place. -/
def s2st2 : AssemblyState :=
  { edgeMap := [("A-B", ec2AB), ("A-C", e2AC)],
    nodeMap := [("A", n2A), ("B", n2B), ("C", n2C)] }

theorem s2_corrpass : correlationPass s2ctx s2st1 = s2st2 := by
  unfold correlationPass
  have hcondc : (s2ctx.filters.dependencyType = DependencyTypeFilter.all ∨
      s2ctx.filters.dependencyType = DependencyTypeFilter.correlation) ∧
      1 < s2ctx.histories.length := by
    refine ⟨Or.inl rfl, ?_⟩
    decide
  rw [if_pos hcondc]
  show (buildCorrelationEdges "A" (findCorrelatedMarkets "A" s2Hist 0 1) TimeWindow.h24).foldl
      (correlationStep s2ctx) s2st1 = s2st2
  rw [s2_fcm]
  have hbce : buildCorrelationEdges "A" [c2B] TimeWindow.h24 = [ec2ABraw] := rfl
  rw [hbce]
  rfl

theorem s2_entpass : entityPass s2ctx s2st2 = s2st2 := by
  unfold entityPass
  have hconde : s2ctx.filters.dependencyType = DependencyTypeFilter.all ∨
      s2ctx.filters.dependencyType = DependencyTypeFilter.entity := Or.inl rfl
  rw [if_pos hconde]
  show (if 0 < (extractEntities "q" ++ extractEntities "q").length then _ else s2st2) = s2st2
  rw [extract_q]
  rfl

theorem s2_temppass : temporalPass s2ctx s2st2 = s2st2 := rfl

theorem s2_state : assembleState s2ctx = s2st2 := by
  unfold assembleState
  rw [s2_struct, s2_corrpass, s2_entpass, s2_temppass]

theorem s2_sort : sortDescBy (fun e => e.weight) [ec2AB, e2AC] = [e2AC, ec2AB] := by
  show insertDescBy (fun e => e.weight) ec2AB (insertDescBy (fun e => e.weight) e2AC []) =
    [e2AC, ec2AB]
  rw [show insertDescBy (fun e => e.weight) e2AC [] = [e2AC] from rfl]
  unfold insertDescBy
  rw [if_neg (by norm_num [ec2AB, e2AC])]
  rfl

/-- The assembled graph of scenario S2: truncation to `maxEdges := 1` keeps
only the heavier structural edge A-C, and node B is filtered out. -/
def g2 : DependencyGraph :=
  { nodes := [n2A, n2C], edges := [e2AC], centerNodeId := "A" }

theorem s2_graph : assembleGraph (some "A") s2Filters [s1Event] s2Hist = some g2 := by
  show some (finalizeGraph s2ctx (assembleState s2ctx)) = some g2
  rw [s2_state]
  unfold finalizeGraph
  rw [show jsMapValues s2st2.edgeMap = [ec2AB, e2AC] from rfl]
  rw [s2_sort]
  rfl

/-! ### Scenario S3: entity edges with cross-event inclusion disabled.
Markets "A" ("Trump"), "B" ("q"), "D" ("Trump") share event E1; market "C"
("Trump") sits in event E2.  With `showCrossEvent := false` the candidate
entity edge A-D (same event) is dropped and the candidate A-C (other event)
is kept. -/

/-- Market "A" (center), question "Trump". -/
def m3Araw : MarketNode := { id := "A", question := "Trump" }

/-- Market "B", question "q". -/
def m3Braw : MarketNode := { id := "B", question := "q" }

/-- Market "D", question "Trump", same event as the center. -/
def m3Draw : MarketNode := { id := "D", question := "Trump" }

/-- Market "C", question "Trump", in the other event. -/
def m3Craw : MarketNode := { id := "C", question := "Trump" }

/-- Event E1 holding A, B and D. -/
def s3E1 : ProcessedEvent := { id := "E1", title := "q", markets := [m3Araw, m3Braw, m3Draw] }

/-- Event E2 holding C. -/
def s3E2 : ProcessedEvent := { id := "E2", title := "q", markets := [m3Craw] }

/-- The two-event catalog of scenario S3. -/
def s3Events : List ProcessedEvent := [s3E1, s3E2]

/-- Market "A" as listed in `allMarketsOf s3Events`. -/
def m3A : MarketNode := { m3Araw with eventId := some "E1" }

/-- Market "B" with its event id. -/
def m3B : MarketNode := { m3Braw with eventId := some "E1" }

/-- Market "D" with its event id. -/
def m3D : MarketNode := { m3Draw with eventId := some "E1" }

/-- Market "C" with its event id. -/
def m3C : MarketNode := { m3Craw with eventId := some "E2" }

/-- Filters of scenario S3: entity edges only, cross-event disabled. -/
def s3Filters : DependencyMapFilters :=
  { correlationThreshold := 1, timeWindow := TimeWindow.h24,
    dependencyType := DependencyTypeFilter.entity, showCrossEvent := false,
    maxEdges := 5, minSharedEntities := 1, maxDaysDiff := 14 }

/-- The resolved assembly context of scenario S3. -/
def s3ctx : AssemblyCtx :=
  { centerMarketId := "A", centerMarket := m3A,
    centerEvent := some s3E1, filters := s3Filters, events := s3Events,
    allMarkets := allMarketsOf s3Events, histories := [] }

theorem s3ctx_eval : assembleCtxOf "A" s3Filters s3Events [] = some s3ctx := rfl

/-- The candidate entity edge A-D (to be dropped by the cross-event check). -/
def e3AD : DependencyEdge :=
  { id := "entity-A-D", sourceId := "A", targetId := "D",
    type := DependencyType.entity, weight := 3/10,
    sharedEntities := some ["Trump"] }

/-- The entity edge A-C (kept: its target is outside the center's event). -/
def e3AC : DependencyEdge :=
  { id := "entity-A-C", sourceId := "A", targetId := "C",
    type := DependencyType.entity, weight := 3/10,
    sharedEntities := some ["Trump"] }

/-- Node for market A in scenario S3. -/
def n3A : DependencyNode := marketToNode m3A (some s3E1) []

/-- Node for market C in scenario S3. -/
def n3C : DependencyNode := marketToNode m3C (some s3E2) []

theorem s3_candA : entityCandidate "A" [trumpEnt] ["trump"] s3Events 1 m3A = none := by
  unfold entityCandidate
  rw [if_pos (show m3A.id = "A" from rfl)]

theorem s3_candB : entityCandidate "A" [trumpEnt] ["trump"] s3Events 1 m3B = none := by
  unfold entityCandidate m3B m3Braw
  rw [if_neg (by decide)]
  dsimp only
  rw [extract_q]
  rw [show (s3Events.find? (fun e => some e.id == some "E1")) = some s3E1 from rfl]
  dsimp only
  rw [show s3E1.title = "q" from rfl, extract_q]
  rw [if_neg (by decide)]

theorem s3_candD : entityCandidate "A" [trumpEnt] ["trump"] s3Events 1 m3D = some e3AD := by
  unfold entityCandidate m3D m3Draw
  rw [if_neg (by decide)]
  dsimp only
  rw [extract_trump]
  rw [show (s3Events.find? (fun e => some e.id == some "E1")) = some s3E1 from rfl]
  dsimp only
  rw [show s3E1.title = "q" from rfl, extract_q]
  rw [if_pos (by decide)]
  refine congrArg some ?_
  have hfil : ["trump"].filter (fun n =>
      n ∈ ([trumpEnt] ++ []).map (fun e : ExtractedEntity => e.normalized)) = ["trump"] := rfl
  rw [hfil]
  simp only [e3AD, DependencyEdge.mk.injEq]
  norm_num
  exact ⟨rfl, rfl⟩

theorem s3_candC : entityCandidate "A" [trumpEnt] ["trump"] s3Events 1 m3C = some e3AC := by
  unfold entityCandidate m3C m3Craw
  rw [if_neg (by decide)]
  dsimp only
  rw [extract_trump]
  rw [show (s3Events.find? (fun e => some e.id == some "E2")) = some s3E2 from rfl]
  dsimp only
  rw [show s3E2.title = "q" from rfl, extract_q]
  rw [if_pos (by decide)]
  refine congrArg some ?_
  have hfil : ["trump"].filter (fun n =>
      n ∈ ([trumpEnt] ++ []).map (fun e : ExtractedEntity => e.normalized)) = ["trump"] := rfl
  rw [hfil]
  simp only [e3AC, DependencyEdge.mk.injEq]
  norm_num
  exact ⟨rfl, rfl⟩

theorem s3_sortent : sortDescBy (fun e => e.weight) [e3AD, e3AC] = [e3AD, e3AC] := by
  show insertDescBy (fun e => e.weight) e3AD (insertDescBy (fun e => e.weight) e3AC []) =
    [e3AD, e3AC]
  rw [show insertDescBy (fun e => e.weight) e3AC [] = [e3AC] from rfl]
  unfold insertDescBy
  rw [if_pos (by norm_num [e3AD, e3AC])]

theorem s3_febd : findEntityBasedDependencies "A" [trumpEnt] (allMarketsOf s3Events) s3Events 1 =
    [e3AD, e3AC] := by
  unfold findEntityBasedDependencies
  rw [if_neg (by decide)]
  dsimp only
  rw [show listDedup ([trumpEnt].map (fun e => e.normalized)) = ["trump"] from rfl]
  rw [show allMarketsOf s3Events = [m3A, m3B, m3D, m3C] from rfl]
  rw [List.filterMap_cons, s3_candA, List.filterMap_cons, s3_candB,
    List.filterMap_cons, s3_candD, List.filterMap_cons, s3_candC, List.filterMap_nil]
  exact s3_sortent

/-- The initial state of scenario S3. -/
def s3st0 : AssemblyState := { edgeMap := [], nodeMap := [("A", n3A)] }

theorem s3_init : initialState s3ctx = s3st0 := rfl

/-- The deduplicated maps of scenario S3: only the cross-event entity edge
A-C survives; the same-event candidate A-D was dropped. -/
def s3st : AssemblyState :=
  { edgeMap := [("A-C", e3AC)], nodeMap := [("A", n3A), ("C", n3C)] }

theorem s3_entpass : entityPass s3ctx s3st0 = s3st := by
  unfold entityPass
  have hconde : s3ctx.filters.dependencyType = DependencyTypeFilter.all ∨
      s3ctx.filters.dependencyType = DependencyTypeFilter.entity := Or.inr rfl
  rw [if_pos hconde]
  show (if 0 < (extractEntities "Trump" ++ extractEntities "q").length then
      (findEntityBasedDependencies "A" (extractEntities "Trump" ++ extractEntities "q")
        (allMarketsOf s3Events) s3Events 1).foldl (entityStep s3ctx) s3st0
    else s3st0) = s3st
  rw [extract_trump, extract_q]
  rw [if_pos (by decide)]
  rw [show ([trumpEnt] ++ [] : List ExtractedEntity) = [trumpEnt] from rfl]
  rw [s3_febd]
  rfl

theorem s3_state : assembleState s3ctx = s3st := by
  unfold assembleState
  rw [show structuralPass s3ctx (initialState s3ctx) = s3st0 from rfl]
  rw [show correlationPass s3ctx s3st0 = s3st0 from rfl]
  rw [s3_entpass]
  rfl

/-- The assembled graph of scenario S3. -/
def g3 : DependencyGraph :=
  { nodes := [n3A, n3C], edges := [e3AC], centerNodeId := "A" }

theorem s3_graph : assembleGraph (some "A") s3Filters s3Events [] = some g3 := by
  show some (finalizeGraph s3ctx (assembleState s3ctx)) = some g3
  rw [s3_state]
  unfold finalizeGraph
  rw [show jsMapValues s3st.edgeMap = [e3AC] from rfl]
  rw [show sortDescBy (fun e => e.weight) [e3AC] = [e3AC] from rfl]
  rfl

/-! ## Claim theorems -/

/-- A market with its own resolution date, used to instantiate the temporal
producer on concrete input. -/
def mW : MarketNode := { id := "M", question := "q", endDate := some (DateStr.valid 0) }

/-- C1 (amended): deduplication happens at the pair-keyed edge map, not at the
final edge list (truncation may drop a pair entirely).  The map holds at most
one edge per pair key; structural, entity and temporal steps never change an
existing binding (insert-if-absent); a correlation step that survives the
cross-event check overwrites its pair key with the correlation edge. -/
theorem claim_C1 (ctx : AssemblyCtx) (st : AssemblyState) (edge : DependencyEdge)
    {k : String} {v : DependencyEdge} (hv : jsMapGet st.edgeMap k = some v) :
    EdgeMapWF (assembleState ctx) ∧
    jsMapGet (structuralStep ctx st edge).edgeMap k = some v ∧
    jsMapGet (entityStep ctx st edge).edgeMap k = some v ∧
    jsMapGet (temporalStep ctx st edge).edgeMap k = some v ∧
    (¬(ctx.filters.showCrossEvent = false ∧
        targetEventIdOf ctx edge ≠ ctx.centerEvent.map (fun ev => ev.id)) →
      jsMapGet (correlationStep ctx st edge).edgeMap
          (getEdgePairKey edge.sourceId edge.targetId) =
        some { edge with id := "correlation-" ++ getEdgePairKey edge.sourceId edge.targetId }) :=
  ⟨assembleState_WF ctx,
   structuralStep_preserve_binding ctx st edge hv,
   entityStep_preserve_binding ctx st edge hv,
   temporalStep_preserve_binding ctx st edge hv,
   fun hkeep => correlationStep_establish ctx st edge hkeep⟩

/-- Witness for C1: in scenario S2 the pair key "A-B" holds the structural
edge after the structural pass, and the correlation step overwrites it. -/
theorem claim_C1_witness :
    jsMapGet s2st1.edgeMap "A-B" = some e2AB ∧
    jsMapGet (correlationStep s2ctx s2st1 ec2ABraw).edgeMap
        (getEdgePairKey ec2ABraw.sourceId ec2ABraw.targetId) =
      some { ec2ABraw with
        id := "correlation-" ++ getEdgePairKey ec2ABraw.sourceId ec2ABraw.targetId } :=
  ⟨rfl, (claim_C1 s2ctx s2st1 ec2ABraw
      (show jsMapGet s2st1.edgeMap "A-B" = some e2AB from rfl)).2.2.2.2
    (fun h => Bool.noConfusion h.1)⟩

/-- Counterexample for C1 as stated: in scenario S2 both a structural and a
correlation candidate for the pair "A-B" survive every filter — the
deduplicated map indeed holds the correlation edge — yet the final graph
contains no edge at all for that pair, because `maxEdges := 1` truncation
drops it. -/
theorem claim_C1_counterexample :
    jsMapGet (assembleState s2ctx).edgeMap "A-B" = some ec2AB ∧
    ec2AB.type = DependencyType.correlation ∧
    assembleGraph (some "A") s2Filters [s1Event] s2Hist = some g2 ∧
    ∀ e ∈ g2.edges, getEdgePairKey e.sourceId e.targetId ≠ "A-B" := by
  refine ⟨by rw [s2_state]; rfl, rfl, s2_graph, ?_⟩
  intro e he
  rw [show g2.edges = [e2AC] from rfl] at he
  rw [List.mem_singleton] at he
  subst he
  decide

/-- C2: when the deduplicated candidates exceed `maxEdges`, the final edge
list has exactly `maxEdges` elements, is sorted by weight descending, comes
from the deduplicated map, outweighs every truncated candidate, and the node
list is exactly the stored nodes that are the center or an endpoint of a
retained edge. -/
theorem claim_C2 (ctx : AssemblyCtx)
    (h : ctx.filters.maxEdges < (jsMapValues (assembleState ctx).edgeMap).length) :
    (finalizeGraph ctx (assembleState ctx)).edges.length = ctx.filters.maxEdges ∧
    (finalizeGraph ctx (assembleState ctx)).edges.Pairwise (fun a b => b.weight ≤ a.weight) ∧
    (∀ e ∈ (finalizeGraph ctx (assembleState ctx)).edges,
      e ∈ jsMapValues (assembleState ctx).edgeMap) ∧
    (∀ e ∈ (finalizeGraph ctx (assembleState ctx)).edges,
      ∀ e' ∈ (sortDescBy (fun e => e.weight)
          (jsMapValues (assembleState ctx).edgeMap)).drop ctx.filters.maxEdges,
        e'.weight ≤ e.weight) ∧
    (∀ n, n ∈ (finalizeGraph ctx (assembleState ctx)).nodes ↔
      n ∈ jsMapValues (assembleState ctx).nodeMap ∧
        (n.id = ctx.centerMarketId ∨
          ∃ e ∈ (finalizeGraph ctx (assembleState ctx)).edges,
            n.id = e.sourceId ∨ n.id = e.targetId)) :=
  ⟨finalizeGraph_edges_length ctx _ h, finalizeGraph_edges_sorted ctx _,
   finalizeGraph_edges_sub ctx _, finalizeGraph_edges_top ctx _,
   fun _ => finalizeGraph_nodes_mem ctx _⟩

/-- Witness for C2: scenario S2 has two deduplicated candidates and
`maxEdges := 1`, so exactly one edge survives. -/
theorem claim_C2_witness :
    s2ctx.filters.maxEdges < (jsMapValues (assembleState s2ctx).edgeMap).length ∧
    (finalizeGraph s2ctx (assembleState s2ctx)).edges.length = s2ctx.filters.maxEdges := by
  have h : s2ctx.filters.maxEdges < (jsMapValues (assembleState s2ctx).edgeMap).length := by
    rw [s2_state]
    decide
  exact ⟨h, (claim_C2 s2ctx h).1⟩

/-- C3 (amended): the underlying Pearson coefficient is symmetric in its two
return arrays; `computeCorrelation` itself is not symmetric, because the
alignment interpolates series B at series A's timestamps (see the
counterexample). -/
theorem claim_C3 (x y : List ℚ) : pearsonCorrelation x y = pearsonCorrelation y x :=
  pearsonCorrelation_symm x y

/-- Counterexample for C3 as stated: the ramp against its two-point envelope
correlates perfectly, but swapping the arguments aligns only two points and
returns the degenerate zero result. -/
theorem claim_C3_counterexample :
    (computeCorrelation serA serB).correlation = 1 ∧
    (computeCorrelation serB serA).correlation = 0 ∧
    (computeCorrelation serA serB).correlation ≠ (computeCorrelation serB serA).correlation := by
  refine ⟨by rw [corr_serA_serB], by rw [corr_serB_serA], ?_⟩
  rw [corr_serA_serB, corr_serB_serA]
  norm_num

/-- C4: every edge of the final graph has weight in `[0, 1]`, and the four
producers emit exactly the advertised weights: structural `1/2`, correlation
`|c|` for a clamped correlation `c ∈ [-1, 1]`, entity `min 1 (0.3·k)` for the
shared-entity count `k`, temporal `1 − d/maxD` for a day distance
`0 ≤ d ≤ maxD`. -/
theorem claim_C4 (ctx : AssemblyCtx) :
    (∀ e ∈ (finalizeGraph ctx (assembleState ctx)).edges, 0 ≤ e.weight ∧ e.weight ≤ 1) ∧
    (∀ (t : String) (events : List ProcessedEvent) (e : DependencyEdge),
      e ∈ findStructuralDependencies t events → e.weight = 1/2) ∧
    (∀ (cid : String) (histories : JsMap (List PriceHistoryPoint)) (threshold : ℚ)
        (maxResults : ℕ) (tw : TimeWindow) (e : DependencyEdge),
      e ∈ buildCorrelationEdges cid (findCorrelatedMarkets cid histories threshold maxResults)
          tw →
      ∃ c, e.correlation = some c ∧ e.weight = |c| ∧ -1 ≤ c ∧ c ≤ 1) ∧
    (∀ (t : String) (te : List ExtractedEntity) (am : List MarketNode)
        (events : List ProcessedEvent) (ms : ℕ) (e : DependencyEdge),
      e ∈ findEntityBasedDependencies t te am events ms →
      ∃ k : ℕ, ms ≤ k ∧ e.weight = min 1 (k * (3/10 : ℚ))) ∧
    (∀ (t : String) (td : Option DateStr) (am : List MarketNode)
        (events : List ProcessedEvent) (maxD : ℚ) (e : DependencyEdge),
      e ∈ findTemporalDependencies t td am events maxD →
      ∃ d : ℚ, 0 ≤ d ∧ d ≤ maxD ∧ e.weight = 1 - d / maxD) := by
  refine ⟨?_, ?_, ?_, ?_, ?_⟩
  · exact fun e he => assembleState_weights ctx e (finalizeGraph_edges_sub ctx _ e he)
  · exact fun t events e he => (structural_edge_shape he).1
  · intro cid histories threshold maxResults tw e he
    obtain ⟨-, -, -, -, c, hcorr, hw, h₁, h₂, hc⟩ := correlation_edge_shape he
    have hrange := computeCorrelation_correlation_range h₁ h₂
    exact ⟨c, hcorr, hw, by rw [hc]; exact hrange.1, by rw [hc]; exact hrange.2⟩
  · intro t te am events ms e he
    obtain ⟨-, -, -, k, hk, hw⟩ := entity_edge_shape he
    exact ⟨k, hk, hw⟩
  · intro t td am events maxD e he
    obtain ⟨-, -, -, d, hd0, hdm, hw⟩ := temporal_edge_shape he
    exact ⟨d, hd0, hdm, hw⟩

/-- Witness for C4: the structural edge A-B of scenario S1 is in the final
graph and its weight lies in `[0, 1]`. -/
theorem claim_C4_witness :
    e1AB ∈ (finalizeGraph s1ctx (assembleState s1ctx)).edges ∧
    0 ≤ e1AB.weight ∧ e1AB.weight ≤ 1 := by
  have hg : finalizeGraph s1ctx (assembleState s1ctx) = g1 :=
    Option.some_injective _
      (show some (finalizeGraph s1ctx (assembleState s1ctx)) = some g1 from s1_graph)
  have hmem : e1AB ∈ (finalizeGraph s1ctx (assembleState s1ctx)).edges := by
    rw [hg]
    exact List.mem_cons_self _ _
  exact ⟨hmem, (claim_C4 s1ctx).1 e1AB hmem⟩

/-- C5: with cross-event inclusion disabled, every entity or temporal edge of
the final graph targets a market outside the center's event, and every
correlation edge targets a market inside it — the opposite direction. -/
theorem claim_C5 (ctx : AssemblyCtx) (hcross : ctx.filters.showCrossEvent = false) :
    ∀ e ∈ (finalizeGraph ctx (assembleState ctx)).edges,
      ((e.type = DependencyType.entity ∨ e.type = DependencyType.temporal) →
        targetEventIdOf ctx e ≠ ctx.centerEvent.map (fun ev => ev.id)) ∧
      (e.type = DependencyType.correlation →
        targetEventIdOf ctx e = ctx.centerEvent.map (fun ev => ev.id)) :=
  fun e he => assembleState_CrossEventInv ctx hcross e (finalizeGraph_edges_sub ctx _ e he)

/-- Witness for C5: in scenario S3 (cross-event disabled) the entity edge A-C
is retained and indeed targets a market outside the center's event. -/
theorem claim_C5_witness :
    s3ctx.filters.showCrossEvent = false ∧
    e3AC ∈ (finalizeGraph s3ctx (assembleState s3ctx)).edges ∧
    targetEventIdOf s3ctx e3AC ≠ s3ctx.centerEvent.map (fun ev => ev.id) := by
  have hg : finalizeGraph s3ctx (assembleState s3ctx) = g3 :=
    Option.some_injective _
      (show some (finalizeGraph s3ctx (assembleState s3ctx)) = some g3 from s3_graph)
  have hmem : e3AC ∈ (finalizeGraph s3ctx (assembleState s3ctx)).edges := by
    rw [hg]
    exact List.mem_cons_self _ _
  exact ⟨rfl, hmem, (claim_C5 s3ctx rfl e3AC hmem).1 (Or.inl rfl)⟩

/-- C6: for a target with a valid end date and a catalog market with a valid
end date, writing `d` for their absolute day distance: beyond `maxDaysDiff`
no temporal edge is produced; otherwise exactly one edge is produced with
weight `1 − d/maxDaysDiff`, which is `1` at `d = 0` and `0` at
`d = maxDaysDiff`. -/
theorem claim_C6 (t : String) (a b : ℚ) (m : MarketNode) (events : List ProcessedEvent)
    (maxDaysDiff : ℚ) (hmax : 0 < maxDaysDiff) (hid : m.id ≠ t)
    (hdate : getMarketEndDate m events = some (DateStr.valid b)) :
    (maxDaysDiff < |(b - a) / DAY_MS| →
      findTemporalDependencies t (some (DateStr.valid a)) [m] events maxDaysDiff = []) ∧
    (|(b - a) / DAY_MS| ≤ maxDaysDiff →
      findTemporalDependencies t (some (DateStr.valid a)) [m] events maxDaysDiff =
        [{ id := "temporal-" ++ t ++ "-" ++ m.id, sourceId := t, targetId := m.id,
           type := DependencyType.temporal,
           weight := 1 - |(b - a) / DAY_MS| / maxDaysDiff,
           daysDiff := some |(b - a) / DAY_MS|,
           precedence := some (if |b - a| < DAY_MS then Precedence.same
             else if b - a < 0 then Precedence.before else Precedence.after) }]) ∧
    (|(b - a) / DAY_MS| = 0 → 1 - |(b - a) / DAY_MS| / maxDaysDiff = 1) ∧
    (|(b - a) / DAY_MS| = maxDaysDiff → 1 - |(b - a) / DAY_MS| / maxDaysDiff = 0) := by
  have hprox : computeTemporalProximity (some (DateStr.valid a)) (getMarketEndDate m events) =
      some { daysDiff := |(b - a) / DAY_MS|,
             precedence := if |b - a| < DAY_MS then Precedence.same
               else if b - a < 0 then Precedence.before else Precedence.after } := by
    rw [hdate]
    unfold computeTemporalProximity
    rfl
  refine ⟨?_, ?_, ?_, ?_⟩
  · intro hgt
    have hcand : temporalCandidate t (some (DateStr.valid a)) events maxDaysDiff m = none := by
      unfold temporalCandidate
      rw [if_neg hid, hprox]
      dsimp only
      rw [if_pos hgt]
    show sortDescBy (fun e => e.weight)
      ([m].filterMap (temporalCandidate t (some (DateStr.valid a)) events maxDaysDiff)) = []
    rw [List.filterMap_cons, hcand]
    rfl
  · intro hle
    have hcand : temporalCandidate t (some (DateStr.valid a)) events maxDaysDiff m =
        some { id := "temporal-" ++ t ++ "-" ++ m.id, sourceId := t, targetId := m.id,
               type := DependencyType.temporal,
               weight := 1 - |(b - a) / DAY_MS| / maxDaysDiff,
               daysDiff := some |(b - a) / DAY_MS|,
               precedence := some (if |b - a| < DAY_MS then Precedence.same
                 else if b - a < 0 then Precedence.before else Precedence.after) } := by
      unfold temporalCandidate
      rw [if_neg hid, hprox]
      dsimp only
      rw [if_neg (not_lt.mpr hle)]
    show sortDescBy (fun e => e.weight)
        ([m].filterMap (temporalCandidate t (some (DateStr.valid a)) events maxDaysDiff)) = _
    rw [List.filterMap_cons, hcand]
    rfl
  · intro h0
    rw [h0]
    norm_num
  · intro heq
    rw [heq, div_self (ne_of_gt hmax)]
    norm_num

/-- Witness for C6: a market resolving at the same instant as the target
yields a single temporal edge of weight `1 − 0/14`. -/
theorem claim_C6_witness :
    findTemporalDependencies "X" (some (DateStr.valid 0)) [mW] [] 14 =
      [{ id := "temporal-" ++ "X" ++ "-" ++ mW.id, sourceId := "X", targetId := mW.id,
         type := DependencyType.temporal,
         weight := 1 - |((0 : ℚ) - 0) / DAY_MS| / 14,
         daysDiff := some |((0 : ℚ) - 0) / DAY_MS|,
         precedence := some (if |(0 : ℚ) - 0| < DAY_MS then Precedence.same
           else if (0 : ℚ) - 0 < 0 then Precedence.before else Precedence.after) }] :=
  (claim_C6 "X" 0 0 mW [] 14 (by norm_num) (by decide) rfl).2.1 (by norm_num [DAY_MS])

/-- C7 (amended): the reported correlation always lies in `[-1, 1]` and the
confidence in `[0, 1]`; fewer than five aligned points yield the zero result
(correlation 0, confidence 0); a constant return array yields correlation 0 —
but with the usual sample-size confidence, not confidence 0 (see the
counterexample). -/
theorem claim_C7 (seriesA seriesB : List PriceHistoryPoint) :
    (-1 ≤ (computeCorrelation seriesA seriesB).correlation ∧
      (computeCorrelation seriesA seriesB).correlation ≤ 1) ∧
    (0 ≤ (computeCorrelation seriesA seriesB).confidence ∧
      (computeCorrelation seriesA seriesB).confidence ≤ 1) ∧
    ((alignTimeSeries seriesA seriesB).1.length < 5 →
      computeCorrelation seriesA seriesB =
        { correlation := 0, confidence := 0,
          n := (alignTimeSeries seriesA seriesB).1.length }) ∧
    (((∀ x ∈ computeReturns (alignTimeSeries seriesA seriesB).1,
        ∀ y ∈ computeReturns (alignTimeSeries seriesA seriesB).1, x = y) ∨
      (∀ x ∈ computeReturns (alignTimeSeries seriesA seriesB).2,
        ∀ y ∈ computeReturns (alignTimeSeries seriesA seriesB).2, x = y)) →
      (computeCorrelation seriesA seriesB).correlation = 0) :=
  ⟨computeCorrelation_correlation_range seriesA seriesB,
   computeCorrelation_confidence_range seriesA seriesB,
   fun h => computeCorrelation_degenerate seriesA seriesB h,
   fun h => computeCorrelation_const_returns seriesA seriesB h⟩

/-- Witness for C7: swapping the ramp and its envelope aligns only two
points, hitting the degenerate zero branch. -/
theorem claim_C7_witness :
    (alignTimeSeries serB serA).1.length < 5 ∧
    computeCorrelation serB serA =
      { correlation := 0, confidence := 0, n := (alignTimeSeries serB serA).1.length } := by
  have h5 : (alignTimeSeries serB serA).1.length < 5 := by
    rw [align_serB_serA]
    norm_num
  exact ⟨h5, (claim_C7 serB serA).2.2.1 h5⟩

/-- Counterexample for C7 as stated: the ramp against a constant series is a
zero-variance degenerate input, and the correlation is 0 as claimed — but the
confidence is `15/34`, not 0. -/
theorem claim_C7_counterexample :
    (∀ x ∈ computeReturns (alignTimeSeries serA serBc).2,
       ∀ y ∈ computeReturns (alignTimeSeries serA serBc).2, x = y) ∧
    (computeCorrelation serA serBc).correlation = 0 ∧
    (computeCorrelation serA serBc).confidence = 15/34 ∧
    (computeCorrelation serA serBc).confidence ≠ 0 := by
  have h2 : (alignTimeSeries serA serBc).2 = [1, 1, 1, 1, 1, 1] := by
    rw [align_serA_serBc]
  refine ⟨?_, by rw [corr_serA_serBc], by rw [corr_serA_serBc], by rw [corr_serA_serBc]; norm_num⟩
  intro x hx y hy
  rw [h2, returns_const] at hx hy
  simp at hx hy
  rw [hx, hy]

/-- C8: the structural producer emits one weight-`1/2` edge per sibling of
the first event containing the target (empty when no event contains it), and
on the concrete trio A, B, C alone in one event, assembling for A with
type=structural yields exactly the edges A-B and A-C of weight `1/2`. -/
theorem claim_C8 (t : String) (events : List ProcessedEvent) :
    (events.find? (fun ev => (ev.markets.find? (fun m => m.id == t)).isSome) = none →
      findStructuralDependencies t events = []) ∧
    (∀ ev, events.find? (fun ev => (ev.markets.find? (fun m => m.id == t)).isSome) = some ev →
      (findStructuralDependencies t events).length =
        (ev.markets.filter (fun m => m.id != t)).length) ∧
    (∀ e ∈ findStructuralDependencies t events,
      e.weight = 1/2 ∧ e.type = DependencyType.structural ∧ e.sourceId = t ∧
      e.sharedEventId.isSome ∧ e.sharedEventTitle.isSome) ∧
    assembleGraph (some "A") s1Filters [s1Event] [] = some g1 ∧
    g1.edges = [e1AB, e1AC] ∧ e1AB.weight = 1/2 ∧ e1AC.weight = 1/2 := by
  refine ⟨?_, ?_, ?_, s1_graph, rfl, rfl, rfl⟩
  · intro h
    unfold findStructuralDependencies
    rw [h]
  · intro ev hev
    unfold findStructuralDependencies
    rw [hev]
    exact List.length_map _ _
  · intro e he
    obtain ⟨hw, htype, hsrc, ev, -, hsid, hstl, -⟩ := structural_edge_shape he
    exact ⟨hw, htype, hsrc, by rw [hsid]; rfl, by rw [hstl]; rfl⟩

/-- Witness for C8: the trio event is found for target "A" and the producer
emits one edge per sibling. -/
theorem claim_C8_witness :
    [s1Event].find? (fun ev => (ev.markets.find? (fun m => m.id == "A")).isSome) =
      some s1Event ∧
    (findStructuralDependencies "A" [s1Event]).length =
      (s1Event.markets.filter (fun m => m.id != "A")).length := by
  have hf : [s1Event].find? (fun ev => (ev.markets.find? (fun m => m.id == "A")).isSome) =
      some s1Event := rfl
  exact ⟨hf, (claim_C8 "A" [s1Event]).2.1 s1Event hf⟩

/-- C9 (amended): extraction is deterministic and never repeats a normalized
key; on the exact text "Trump and the Fed" it yields the person entity
"trump" and the organization entity "fed".  The universal claim for any text
*containing* that phrase fails at word boundaries (see the counterexample). -/
theorem claim_C9 (text : String) :
    ((extractEntities text).map (fun e => e.normalized)).Nodup ∧
    extractEntities text = extractEntities text ∧
    extractEntities "Trump and the Fed" = [trumpEnt, fedEnt] ∧
    trumpEnt.type = EntityType.person ∧ trumpEnt.normalized = "trump" ∧
    fedEnt.type = EntityType.organization ∧ fedEnt.normalized = "fed" :=
  ⟨extractEntities_nodup text, rfl, extract_trump_fed, rfl, rfl, rfl, rfl⟩

/-- Counterexample for C9 as stated: "xTrump and the Fedx" contains the
substring "Trump and the Fed", yet extraction returns nothing — the matchers
require word boundaries around each dictionary entry. -/
theorem claim_C9_counterexample :
    List.IsInfix "Trump and the Fed".data "xTrump and the Fedx".data ∧
    extractEntities "xTrump and the Fedx" = [] ∧
    ¬∃ e ∈ extractEntities "xTrump and the Fedx", e.normalized = "trump" := by
  refine ⟨⟨['x'], ['x'], by decide⟩, extract_xtfx, ?_⟩
  rw [extract_xtfx]
  rintro ⟨e, he, -⟩
  simp at he

/-- C10: in every non-null assembled graph (over a history map keyed by
catalog market ids), both endpoints of every retained edge have a node in the
returned node list. -/
theorem claim_C10 (cid : String) (filters : DependencyMapFilters)
    (events : List ProcessedEvent) (histories : JsMap (List PriceHistoryPoint))
    (g : DependencyGraph)
    (hg : assembleGraph (some cid) filters events histories = some g)
    (hhist : ∀ k ∈ jsMapKeys histories, ∃ m ∈ allMarketsOf events, m.id = k) :
    ∀ e ∈ g.edges,
      (∃ n ∈ g.nodes, n.id = e.sourceId) ∧ (∃ n ∈ g.nodes, n.id = e.targetId) := by
  obtain ⟨ctx, hctx, rfl⟩ := assembleGraph_inv hg
  obtain ⟨hcid, -, hevents, hhists, hAM, -, hcm⟩ := assembleCtxOf_inv hctx
  have hinv : StateInv ctx.centerMarketId (assembleState ctx) := by
    refine assembleState_StateInv ctx (by rw [hAM, hevents]) ?_ (by rw [hcm, hcid])
    intro k hk
    rw [hhists] at hk
    obtain ⟨m, hm, hmid⟩ := hhist k hk
    rw [hAM]
    exact ⟨m, hm, hmid⟩
  exact finalizeGraph_no_dangling ctx _ hinv

/-- Witness for C10: the structural edge A-B of scenario S1 has nodes for
both endpoints in the final graph. -/
theorem claim_C10_witness :
    (∃ n ∈ g1.nodes, n.id = e1AB.sourceId) ∧ (∃ n ∈ g1.nodes, n.id = e1AB.targetId) :=
  claim_C10 "A" s1Filters [s1Event] [] g1 s1_graph
    (by intro k hk; simp [jsMapKeys] at hk)
    e1AB (List.mem_cons_self _ _)

end PolyViz
